import Mathlib

/-!
# zocket: WebSocket frame codec and server connection

A shallow embedding of `frame.go` (`ReadFrame`, `Frame.WriteTo`) and
`server_conn.go` (`ServerConnection.Read`, `Write`, `Close`).

Bytes are natural numbers; every place where the Go code converts to `byte`,
`uint16` or `uint64` reduces modulo the width explicitly.  The transport
(`net.Conn`) is an external collaborator, modelled as a scripted peer: a list
of pending read events, a list of outcomes for the next writes, the bytes the
transport has accepted so far, the buffer sizes of the `Read` calls made on
it, and a closed flag.
-/

namespace Zocket

/-- Bytes of the wire, as natural numbers. -/
abbrev Byte := Nat

/-- Error values returned by the codec and the connection.  The constructors
stand for `io.EOF`, any other transport error, and the `errors.New` values of
`frame.go` and `server_conn.go`.  The constructor `makeslicePanic` is not an
error value: it stands for the run-time panic of `make([]byte, n, n)` with a
length out of range; a result that carries it means that the call did not
return but panicked, and every caller hands it on unchanged, as the panic
unwinds through it. -/
inductive Err where
  | eof
  | transport (code : Nat)
  | incompleteHeader
  | invalidFrameHeader
  | incompleteLengthField
  | incompleteMask
  | shortHeadWrite
  | connectionClosed (payload : List Byte)
  | makeslicePanic
  deriving DecidableEq, Repr

/-- Rendering of a byte slice by the `%v` verb: `[98 121 101]`. -/
def fmtBytes (p : List Byte) : String :=
  "[" ++ " ".intercalate (p.map Nat.repr) ++ "]"

/-- Message text of an error (`error.Error()`); transport errors are opaque
to this development and only show their code. -/
def Err.Error : Err → String
  | .eof => "EOF"
  | .transport code => "transport error " ++ Nat.repr code
  | .incompleteHeader => "incomplete header"
  | .invalidFrameHeader => "invalid frame header"
  | .incompleteLengthField => "incomplete length field"
  | .incompleteMask => "incomplete mask"
  | .shortHeadWrite => "partial head write"
  | .connectionClosed payload => "connection closed: " ++ fmtBytes payload
  | .makeslicePanic => "panic: runtime error: makeslice: len out of range"

/-- Equality of results is decidable, so that concrete runs can be evaluated. -/
instance instDecidableEqExcept {ε α : Type} [DecidableEq ε] [DecidableEq α] :
    DecidableEq (Except ε α)
  | Except.ok a, Except.ok b =>
    if h : a = b then isTrue (by rw [h]) else isFalse (fun h2 => h (by injection h2))
  | Except.error a, Except.error b =>
    if h : a = b then isTrue (by rw [h]) else isFalse (fun h2 => h (by injection h2))
  | Except.ok _, Except.error _ => isFalse (fun h => by cases h)
  | Except.error _, Except.ok _ => isFalse (fun h => by cases h)

/-! ## Transport -/

/-- One pending event on the read side: a segment of bytes that a single
`Read` call can return (at most), or a read error. -/
inductive ReadEvent where
  | data (bs : List Byte)
  | fail (code : Nat)
  deriving DecidableEq, Repr

/-- Outcome scripted for one `Write` call: the transport accepts at most `n`
bytes, without or with an error. -/
inductive WriteEvent where
  | accept (n : Nat)
  | fail (n : Nat) (code : Nat)
  deriving DecidableEq, Repr

/-- State of the transport behind a `net.Conn`. -/
structure Conn where
  inbox : List ReadEvent
  wscript : List WriteEvent
  sent : List Byte
  reads : List Nat
  closed : Bool
  deriving DecidableEq, Repr

/-- Transport `Read` into a buffer of `k` bytes: returns the bytes delivered
(their number is Go's `n`), the error, and the transport afterwards.  An empty
inbox reports `io.EOF`. -/
def Conn.Read (c : Conn) (k : Nat) : List Byte × Option Err × Conn :=
  match c.inbox with
  | [] => ([], some Err.eof, { c with reads := c.reads ++ [k] })
  | ReadEvent.fail code :: rest =>
    ([], some (Err.transport code), { c with inbox := rest, reads := c.reads ++ [k] })
  | ReadEvent.data seg :: rest =>
    if seg.length ≤ k then
      (seg, none, { c with inbox := rest, reads := c.reads ++ [k] })
    else
      (seg.take k, none,
        { c with inbox := ReadEvent.data (seg.drop k) :: rest, reads := c.reads ++ [k] })

/-- Transport `Write` of the bytes `p`: returns the number of bytes accepted,
the error, and the transport afterwards.  With an empty script every write is
accepted in full. -/
def Conn.Write (c : Conn) (p : List Byte) : Nat × Option Err × Conn :=
  match c.wscript with
  | [] => (p.length, none, { c with sent := c.sent ++ p })
  | WriteEvent.accept n :: rest =>
    (min n p.length, none,
      { c with wscript := rest, sent := c.sent ++ p.take (min n p.length) })
  | WriteEvent.fail n code :: rest =>
    (min n p.length, some (Err.transport code),
      { c with wscript := rest, sent := c.sent ++ p.take (min n p.length) })

/-- Transport `Close`. -/
def Conn.Close (c : Conn) : Conn := { c with closed := true }

/-! ## Frames -/

def FrameType_Cont : Nat := 0x00
def FrameType_Text : Nat := 0x01
def FrameType_Binary : Nat := 0x02
def FrameType_Close : Nat := 0x08
def FrameType_Ping : Nat := 0x09
def FrameType_Pong : Nat := 0x0a

/-- The `Frame` struct.  `Mask` stands for the `[4]byte` key. -/
structure Frame where
  Fin : Bool
  Opcode : Nat
  Masked : Bool
  Mask : List Byte
  Len : Nat
  Payload : List Byte
  deriving DecidableEq, Repr

/-- The zero value of `[4]byte`. -/
def zeroMask : List Byte := [0, 0, 0, 0]

/-- The unmasking loop `for i := m; i < m+n; i++ { Payload[i] ^= Mask[i%4] }`
applied to the chunk that occupies the positions `m, m+1, ...` of the payload. -/
def xorMask (mask : List Byte) : Nat → List Byte → List Byte
  | _, [] => []
  | m, x :: xs => (x ^^^ mask.getD (m % 4) 0) :: xorMask mask (m + 1) xs

/-- `binary.BigEndian.Uint64` on an 8-byte buffer. -/
def beUint64 (b : List Byte) : Nat :=
  (b.getD 7 0 ||| b.getD 6 0 <<< 8 ||| b.getD 5 0 <<< 16 ||| b.getD 4 0 <<< 24 |||
    b.getD 3 0 <<< 32 ||| b.getD 2 0 <<< 40 ||| b.getD 1 0 <<< 48 ||| b.getD 0 0 <<< 56)
    % 2 ^ 64

/-- `binary.BigEndian.PutUint16` of `uint16(n)`. -/
def putUint16 (n : Nat) : List Byte :=
  [((n % 2 ^ 16) >>> 8) % 256, (n % 2 ^ 16) % 256]

/-- `binary.BigEndian.PutUint64` of `uint64(n)`. -/
def putUint64 (n : Nat) : List Byte :=
  [((n % 2 ^ 64) >>> 56) % 256, ((n % 2 ^ 64) >>> 48) % 256, ((n % 2 ^ 64) >>> 40) % 256,
   ((n % 2 ^ 64) >>> 32) % 256, ((n % 2 ^ 64) >>> 24) % 256, ((n % 2 ^ 64) >>> 16) % 256,
   ((n % 2 ^ 64) >>> 8) % 256, (n % 2 ^ 64) % 256]

/-- The extended length field of `ReadFrame`: for the sentinels 126 and 127
the extension is read into the tail of the zeroed 8-byte `tLenBuffer` and the
whole buffer is decoded big-endian. -/
def readLength (c : Conn) (len7 : Nat) : Except Err Nat × Conn :=
  if len7 = 126 then
    match c.Read 2 with
    | (_, some e, c1) => (Except.error e, c1)
    | (ext, none, c1) =>
      if ext.length ≠ 2 then (Except.error Err.incompleteLengthField, c1)
      else (Except.ok (beUint64 ([0, 0, 0, 0, 0, 0] ++ ext)), c1)
  else if len7 = 127 then
    match c.Read 8 with
    | (_, some e, c1) => (Except.error e, c1)
    | (ext, none, c1) =>
      if ext.length ≠ 8 then (Except.error Err.incompleteLengthField, c1)
      else (Except.ok (beUint64 ext), c1)
  else (Except.ok len7, c)

/-- The mask key of `ReadFrame`: read only when the frame is masked, else the
zero value of the field is kept. -/
def readMask (c : Conn) (masked : Bool) : Except Err (List Byte) × Conn :=
  if masked then
    match c.Read 4 with
    | (_, some e, c1) => (Except.error e, c1)
    | (key, none, c1) =>
      if key.length ≠ 4 then (Except.error Err.incompleteMask, c1)
      else (Except.ok key, c1)
  else (Except.ok zeroMask, c)

/-- The payload loop of `ReadFrame`.  `got` is the filled part `Payload[:len]`
of the buffer; each pass reads into `Payload[len:]` and unmasks the positions
just read.  `none` only when the fuel runs out. -/
def readPayload (masked : Bool) (mask : List Byte) (total : Nat) :
    Nat → Conn → List Byte → Option (Except Err (List Byte) × Conn)
  | fuel, c, got =>
    if got.length = total then some (Except.ok got, c)
    else
      match fuel with
      | 0 => none
      | fuel + 1 =>
        match c.Read (total - got.length) with
        | (_, some e, c1) => some (Except.error e, c1)
        | (chunk, none, c1) =>
          readPayload masked mask total fuel c1
            (got ++ (if masked then xorMask mask got.length chunk else chunk))

/-- Read a frame from the wire (`ReadFrame`).  The result is `none` only if
the payload loop does not finish within one pass per pending read event.
After the key has been read the payload buffer is allocated with
`make([]byte, tFrame.Len, tFrame.Len)`, which panics when the declared length
is `2^63` or more (it does not fit the type `int`); limits of the allocator
below that bound depend on the platform and are not modelled. -/
def ReadFrame (c : Conn) : Option (Except Err Frame × Conn) :=
  match c.Read 2 with
  | (_, some e, c1) => some (Except.error e, c1)
  | (head, none, c1) =>
    if head.length ≠ 2 then some (Except.error Err.incompleteHeader, c1)
    else
      let h0 := head.getD 0 0
      let h1 := head.getD 1 0
      if (h0 &&& 64 ≠ 0) || (h0 &&& 32 ≠ 0) || (h0 &&& 16 ≠ 0) then
        some (Except.error Err.invalidFrameHeader, c1)
      else
        match readLength c1 (h1 &&& 127) with
        | (Except.error e, c2) => some (Except.error e, c2)
        | (Except.ok len, c2) =>
          match readMask c2 (decide (h1 &&& 128 ≠ 0)) with
          | (Except.error e, c3) => some (Except.error e, c3)
          | (Except.ok mask, c3) =>
            if 2 ^ 63 ≤ len then some (Except.error Err.makeslicePanic, c3)
            else
              match readPayload (decide (h1 &&& 128 ≠ 0)) mask len (c3.inbox.length + 1) c3 []
                with
              | none => none
              | some (Except.error e, c4) => some (Except.error e, c4)
              | some (Except.ok payload, c4) =>
                some (Except.ok
                  { Fin := decide (h0 &&& 128 ≠ 0), Opcode := h0 &&& 15,
                    Masked := decide (h1 &&& 128 ≠ 0), Mask := mask, Len := len,
                    Payload := payload }, c4)

/-- The length bits `WriteTo` ors into the second header byte for a payload of
`n` bytes: `byte(n & 127)`, or the sentinel 126 or 127. -/
def lenBits (n : Nat) : Nat :=
  if n < 126 then (n &&& 127) % 256 else if n < 65536 then 126 else 127

/-- The two header bytes built by `WriteTo`. -/
def frameHead (f : Frame) : List Byte :=
  [(if f.Fin then 128 else 0) ||| (f.Opcode &&& 15),
   (if f.Masked then 128 else 0) ||| lenBits f.Payload.length]

/-- The length extension `lbuf` built by `WriteTo` (`none` is Go's `nil`). -/
def frameLbuf (f : Frame) : Option (List Byte) :=
  if f.Payload.length < 126 then none
  else if f.Payload.length < 65536 then some (putUint16 f.Payload.length)
  else some (putUint64 f.Payload.length)

/-- The payload loop of `WriteTo`: `for l < len(f.Payload)` writing
`f.Payload[l:]`.  `none` only when the fuel runs out. -/
def writePayload (payload : List Byte) : Nat → Conn → Nat → Option (Option Err × Conn)
  | fuel, c, l =>
    if l < payload.length then
      match fuel with
      | 0 => none
      | fuel + 1 =>
        match c.Write (payload.drop l) with
        | (_, some e, c1) => some (some e, c1)
        | (n, none, c1) => writePayload payload fuel c1 (l + n)
    else some (none, c)

/-- Write this frame to the wire (`Frame.WriteTo`).  The results of the
writes of the length extension and of the mask key are dropped, as in the
source. -/
def Frame.WriteTo (f : Frame) (c : Conn) : Option (Option Err × Conn) :=
  match c.Write (frameHead f) with
  | (_, some e, c1) => some (some e, c1)
  | (n, none, c1) =>
    if n ≠ 2 then some (some Err.shortHeadWrite, c1)
    else
      let c2 := match frameLbuf f with
        | some lbuf => (c1.Write lbuf).2.2
        | none => c1
      let c3 := if f.Masked then (c2.Write f.Mask).2.2 else c2
      writePayload f.Payload (c3.wscript.length + 1) c3 0

/-! ## Server connection -/

/-- The `ServerConnection` struct: the transport and the residue buffer. -/
structure ServerConnection where
  conn : Conn
  buffered : List Byte
  deriving DecidableEq, Repr

/-- The copy loop `for i := range b { if i >= len(src) { return i }; b[i] = src[i] }`:
the contents of `b` afterwards. -/
def copyInto (b src : List Byte) : List Byte :=
  src.take b.length ++ b.drop src.length

/-- Terminate the connection (`ServerConnection.Close`): an empty Close frame
is written, the result of that write is dropped, and the transport is closed. -/
def ServerConnection.Close (c : ServerConnection) : Option (Option Err × Conn) :=
  match Frame.WriteTo
      { Fin := true, Opcode := FrameType_Close, Masked := false, Mask := zeroMask,
        Len := 0, Payload := [] } c.conn with
  | none => none
  | some (_, c1) => some (none, c1.Close)

/-- The receive loop `datloop` of `ServerConnection.Read`; `buf` is the
`bytes.Buffer` of the message in progress.  The result is the assembled
message, or the error `Read` returns with, and the transport afterwards.  A
panic of `ReadFrame` is handed on like an error: it unwinds through the
loop. -/
def recvLoop : Nat → Conn → List Byte → Option (Except Err (List Byte) × Conn)
  | 0, _, _ => none
  | fuel + 1, c, buf =>
    match ReadFrame c with
    | none => none
    | some (Except.error e, c1) => some (Except.error e, c1)
    | some (Except.ok tFrame, c1) =>
      if tFrame.Opcode = FrameType_Ping then
        match Frame.WriteTo { tFrame with Opcode := FrameType_Pong } c1 with
        | none => none
        | some (_, c2) => recvLoop fuel c2 buf
      else if tFrame.Opcode = FrameType_Pong then recvLoop fuel c1 buf
      else if tFrame.Opcode = FrameType_Close then
        match ServerConnection.Close { conn := c1, buffered := [] } with
        | none => none
        | some (_, c2) => some (Except.error (Err.connectionClosed tFrame.Payload), c2)
      else if tFrame.Opcode = FrameType_Binary then
        if tFrame.Fin then some (Except.ok (buf ++ tFrame.Payload), c1)
        else recvLoop fuel c1 (buf ++ tFrame.Payload)
      else recvLoop fuel c1 buf

/-- Number of read events and bytes pending on the transport; every frame
read consumes at least one unit of it. -/
def Conn.pending (c : Conn) : Nat :=
  (c.inbox.map (fun e => match e with
    | ReadEvent.data bs => bs.length + 1
    | ReadEvent.fail _ => 1)).sum

/-- What a call of `ServerConnection.Read` leaves behind: the returned count
and error, the contents of the caller's buffer, and the receiver `c` as it
stands inside the call when it returns. -/
structure ReadResult where
  n : Nat
  err : Option Err
  b : List Byte
  recv : ServerConnection
  deriving DecidableEq, Repr

/-- Get some bytes from a frame (`ServerConnection.Read`).  `none` only when
the fuel of a loop runs out.  A result whose `err` is `makeslicePanic` stands
for a call that did not return but panicked in `ReadFrame`. -/
def ServerConnection.Read (c : ServerConnection) (b : List Byte) : Option ReadResult :=
  if c.buffered.length > 0 then
    if c.buffered.length < b.length then
      some { n := c.buffered.length, err := none, b := copyInto b c.buffered,
             recv := { c with buffered := [] } }
    else
      some { n := b.length, err := none, b := copyInto b c.buffered,
             recv := if c.buffered.length > b.length
               then { c with buffered := c.buffered.drop b.length } else c }
  else
    match recvLoop (c.conn.pending + 1) c.conn [] with
    | none => none
    | some (Except.error e, c1) =>
      some { n := 0, err := some e, b := b, recv := { c with conn := c1 } }
    | some (Except.ok bytes, c1) =>
      if bytes.length < b.length then
        some { n := bytes.length, err := none, b := copyInto b bytes,
               recv := { c with conn := c1 } }
      else
        some { n := b.length, err := none, b := copyInto b bytes,
               recv := if bytes.length > b.length
                 then { conn := c1, buffered := bytes.drop b.length }
                 else { c with conn := c1 } }

/-- The connection the caller holds after a call of `Read`.  `Read` has a
value receiver (`func (c ServerConnection) Read`), so the call works on a copy
of the struct: the assignments to `c.buffered` are made to that copy and the
caller keeps its own `buffered`; the transport is reached through the
interface value `conn` and is shared. -/
def ServerConnection.afterRead (c : ServerConnection) (r : ReadResult) : ServerConnection :=
  { conn := r.recv.conn, buffered := c.buffered }

/-- Put some bytes on the wire (`ServerConnection.Write`): the count, the
error and the transport afterwards. -/
def ServerConnection.Write (c : ServerConnection) (b : List Byte) :
    Option (Nat × Option Err × Conn) :=
  match Frame.WriteTo
      { Fin := true, Opcode := FrameType_Binary, Masked := false, Mask := zeroMask,
        Len := b.length % 2 ^ 64, Payload := b } c.conn with
  | none => none
  | some (err, c1) => some (b.length, err, c1)

/-- A transport on which the peer has sent the bytes `bs` in one piece and
which accepts every write in full. -/
def Conn.ofBytes (bs : List Byte) : Conn :=
  { inbox := [ReadEvent.data bs], wscript := [], sent := [], reads := [], closed := false }

/-- A transport with nothing to read that accepts every write in full. -/
def Conn.idle : Conn :=
  { inbox := [], wscript := [], sent := [], reads := [], closed := false }

/-- The read events left when the bytes `bs` of the current segment are still
unread and `more` events follow; a segment read to its end is gone. -/
def unread (bs : List Byte) (more : List ReadEvent) : List ReadEvent :=
  if bs = [] then more else ReadEvent.data bs :: more

/-- The bytes `WriteTo` hands to the transport, in order: header, length
extension, mask key when masked, payload. -/
def Frame.wire (f : Frame) : List Byte :=
  frameHead f ++ (frameLbuf f).getD [] ++ (if f.Masked then f.Mask else []) ++ f.Payload

/-- The sizes of the transport reads `ReadFrame` makes for the frame `f` when
every read is served in full. -/
def frameReads (f : Frame) : List Nat :=
  [2] ++ (if f.Payload.length < 126 then [] else if f.Payload.length < 65536 then [2] else [8])
    ++ (if f.Masked then [4] else [])
    ++ (if f.Payload = [] then [] else [f.Payload.length])

/-- The masking transform as the specification words it: a single sequential
pass over the payload that combines byte `i` with `key[i mod 4]`. -/
def maskSequential (key payload : List Byte) : List Byte :=
  (List.range payload.length).map (fun i => payload.getD i 0 ^^^ key.getD (i % 4) 0)

/-! ## Handshake: the accept token -/

/-- The bytes of a Go string holding the character `c` (UTF-8). -/
def utf8Bytes (c : Char) : List Byte :=
  let v := c.toNat
  if v < 0x80 then [v]
  else if v < 0x800 then [0xc0 ||| (v >>> 6), 0x80 ||| (v &&& 0x3f)]
  else if v < 0x10000 then
    [0xe0 ||| (v >>> 12), 0x80 ||| ((v >>> 6) &&& 0x3f), 0x80 ||| (v &&& 0x3f)]
  else
    [0xf0 ||| (v >>> 18), 0x80 ||| ((v >>> 12) &&& 0x3f), 0x80 ||| ((v >>> 6) &&& 0x3f),
     0x80 ||| (v &&& 0x3f)]

/-- The conversion `[]byte(s)` of a string. -/
def bytesOf (s : String) : List Byte :=
  s.data.flatMap utf8Bytes

/-- Rotation of a 32-bit word to the left. -/
def rotl32 (x n : Nat) : Nat :=
  ((x <<< n) ||| (x >>> (32 - n))) % 2 ^ 32

/-- The padding of SHA-1: the byte `0x80`, zero bytes up to 56 modulo 64, and
the length of the message in bits as 8 big-endian bytes. -/
def sha1Pad (msg : List Byte) : List Byte :=
  msg ++ [0x80] ++ List.replicate ((119 - msg.length % 64) % 64) 0 ++ putUint64 (8 * msg.length)

/-- The big-endian 32-bit words of a block. -/
def beWords : List Byte → List Nat
  | a :: b :: c :: d :: rest => (a <<< 24 ||| b <<< 16 ||| c <<< 8 ||| d) :: beWords rest
  | _ => []

/-- The message schedule of SHA-1: `n` more words are appended to `w`. -/
def sha1Schedule : Nat → List Nat → List Nat
  | 0, w => w
  | n + 1, w =>
    let i := w.length
    sha1Schedule n (w ++ [rotl32 (w.getD (i - 3) 0 ^^^ w.getD (i - 8) 0 ^^^ w.getD (i - 14) 0
      ^^^ w.getD (i - 16) 0) 1])

/-- The five 32-bit words of the SHA-1 state. -/
structure Sha1State where
  a : Nat
  b : Nat
  c : Nat
  d : Nat
  e : Nat
  deriving DecidableEq, Repr

/-- One round of SHA-1, with the round number `i` and the schedule word `w`. -/
def sha1Round (s : Sha1State) (i w : Nat) : Sha1State :=
  let f :=
    if i < 20 then (s.b &&& s.c) ||| ((s.b ^^^ 0xffffffff) &&& s.d)
    else if i < 40 then s.b ^^^ s.c ^^^ s.d
    else if i < 60 then (s.b &&& s.c) ||| (s.b &&& s.d) ||| (s.c &&& s.d)
    else s.b ^^^ s.c ^^^ s.d
  let k :=
    if i < 20 then 0x5a827999 else if i < 40 then 0x6ed9eba1
    else if i < 60 then 0x8f1bbcdc else 0xca62c1d6
  { a := (rotl32 s.a 5 + f + s.e + k + w) % 2 ^ 32, b := s.a, c := rotl32 s.b 30, d := s.c,
    e := s.d }

/-- The rounds `i, i+1, ...` of SHA-1 over the schedule words `ws`. -/
def sha1Rounds : Sha1State → Nat → List Nat → Sha1State
  | s, _, [] => s
  | s, i, w :: ws => sha1Rounds (sha1Round s i w) (i + 1) ws

/-- The compression of one 64-byte block into the state `h`. -/
def sha1Block (h : Sha1State) (block : List Byte) : Sha1State :=
  let r := sha1Rounds h 0 (sha1Schedule 64 (beWords block))
  { a := (h.a + r.a) % 2 ^ 32, b := (h.b + r.b) % 2 ^ 32, c := (h.c + r.c) % 2 ^ 32,
    d := (h.d + r.d) % 2 ^ 32, e := (h.e + r.e) % 2 ^ 32 }

/-- The compression of `n` consecutive 64-byte blocks. -/
def sha1Blocks : Nat → Sha1State → List Byte → Sha1State
  | 0, h, _ => h
  | n + 1, h, bs => sha1Blocks n (sha1Block h (bs.take 64)) (bs.drop 64)

/-- The four big-endian bytes of a 32-bit word. -/
def putUint32 (n : Nat) : List Byte :=
  [(n >>> 24) % 256, (n >>> 16) % 256, (n >>> 8) % 256, n % 256]

/-- The SHA-1 digest (`sha1.Sum`), after FIPS 180-4. -/
def sha1Sum (msg : List Byte) : List Byte :=
  let p := sha1Pad msg
  let h := sha1Blocks (p.length / 64)
    { a := 0x67452301, b := 0xefcdab89, c := 0x98badcfe, d := 0x10325476, e := 0xc3d2e1f0 } p
  putUint32 h.a ++ putUint32 h.b ++ putUint32 h.c ++ putUint32 h.d ++ putUint32 h.e

/-- The alphabet of the standard base64 encoding. -/
def b64Alphabet : List Char :=
  "ABCDEFGHIJKLMNOPQRSTUVWXYZabcdefghijklmnopqrstuvwxyz0123456789+/".data

/-- The character of a 6-bit value. -/
def b64Char (n : Nat) : Char :=
  b64Alphabet.getD n (Char.ofNat 61)

/-- The characters of the standard padded base64 encoding (RFC 4648). -/
def b64Chars : List Byte → List Char
  | a :: b :: c :: rest =>
    b64Char (a >>> 2) :: b64Char (((a &&& 3) <<< 4) ||| (b >>> 4))
      :: b64Char (((b &&& 15) <<< 2) ||| (c >>> 6)) :: b64Char (c &&& 63) :: b64Chars rest
  | [a, b] =>
    [b64Char (a >>> 2), b64Char (((a &&& 3) <<< 4) ||| (b >>> 4)), b64Char ((b &&& 15) <<< 2),
     Char.ofNat 61]
  | [a] => [b64Char (a >>> 2), b64Char ((a &&& 3) <<< 4), Char.ofNat 61, Char.ofNat 61]
  | [] => []

/-- The standard base64 encoding (`base64.StdEncoding.EncodeToString`). -/
def EncodeToString (src : List Byte) : String :=
  String.mk (b64Chars src)

/-- The GUID the handshake appends to the client key. -/
def wsGUID : String := "258EAFA5-E914-47DA-95CA-C5AB0DC85B11"

/-- The accept token `ServeHTTP` computes from the value of the key header:
`wsKey += GUID; shakey := sha1.Sum([]byte(wsKey)); base64(shakey[:])`. -/
def acceptToken (wsKey : String) : String :=
  EncodeToString (sha1Sum (bytesOf (wsKey ++ wsGUID)))


/-! ## Handshake: the HTTP handler -/

/-- The fields of `http.Request` the handler looks at.  `Header` holds, for
each header name in canonical form (as the HTTP server stores it), the first
value of that header. -/
structure Request where
  Method : String
  RequestURI : String
  Proto : String
  Header : List (String × String)
  deriving DecidableEq, Repr

/-- The canonical form of a header name made of letters, digits and hyphens
(`textproto.CanonicalMIMEHeaderKey`): the first letter and every letter after
a hyphen in upper case, the others in lower case. -/
def canonicalChars : Bool → List Char → List Char
  | _, [] => []
  | up, c :: cs =>
    (if up then c.toUpper else c.toLower) :: canonicalChars (decide (c = Char.ofNat 45)) cs

/-- The canonical form of a header name. -/
def canonicalKey (s : String) : String :=
  String.mk (canonicalChars true s.data)

/-- The first value of the header `key`, or the empty string
(`req.Header.Get(key)`, which looks the name up in canonical form). -/
def Request.Get (req : Request) (key : String) : String :=
  match req.Header.lookup (canonicalKey key) with
  | some v => v
  | none => ""

/-- What stands behind the `http.ResponseWriter` of a call of `ServeHTTP`:
whether it implements `http.Hijacker`, whether `Hijack()` fails, and the number
of bytes of the client that are buffered on the hijacked connection. -/
structure Responder where
  hijacker : Bool
  hijackFails : Bool
  buffered : Nat
  deriving DecidableEq, Repr

/-- What `ServeHTTP` has done when it returns (or blocks in its last
statement): the status passed to `WriteHeader`, whether the connection was
hijacked, the bytes written to the hijacked connection, whether that
connection was closed, and whether the connection was sent to the channel
`l.cConn`, from which `Accept` receives. -/
structure Served where
  status : Option Nat
  hijacked : Bool
  written : String
  closed : Bool
  handed : Bool
  deriving DecidableEq, Repr

def StatusMethodNotAllowed : Nat := 405
def StatusNotAcceptable : Nat := 406
def StatusUpgradeRequired : Nat := 426

/-- A call of `ServeHTTP` that ends in `resp.WriteHeader(code); return`. -/
def Served.rejected (code : Nat) : Served :=
  { status := some code, hijacked := false, written := "", closed := false, handed := false }

/-- Handle an upgrade request (`Listener.ServeHTTP`). -/
def Listener.ServeHTTP (resp : Responder) (req : Request) : Served :=
  if req.Method ≠ "GET" then Served.rejected StatusMethodNotAllowed
  else if req.RequestURI = "" then Served.rejected StatusNotAcceptable
  else if req.Get "Connection" ≠ "Upgrade" then Served.rejected StatusUpgradeRequired
  else if req.Get "Upgrade" ≠ "websocket" then Served.rejected StatusUpgradeRequired
  else if req.Get "Sec-WebSocket-Version" ≠ "13" then Served.rejected StatusUpgradeRequired
  else
    let wsKey := acceptToken (req.Get "Sec-Websocket-Key")
    if !resp.hijacker then
      { status := none, hijacked := false, written := "", closed := false, handed := false }
    else if resp.hijackFails then
      { status := none, hijacked := false, written := "", closed := false, handed := false }
    else
      let buf := req.Proto ++ " 101 Switching Protocols\r\n" ++ "Upgrade: websocket\r\n"
        ++ "Connection: Upgrade\r\n" ++ ("Sec-WebSocket-Accept: " ++ wsKey ++ "\r\n\r\n")
      if resp.buffered > 0 then
        { status := none, hijacked := true, written := "", closed := true, handed := false }
      else
        { status := none, hijacked := true, written := buf, closed := false, handed := true }

/-! ## Listener: the channel of upgraded connections -/

/-- The state of the unbuffered channel `l.cConn`: whether it has been closed,
and the connections of the handshakes that are blocked in the send
`l.cConn <- conn`, oldest first. -/
structure Listener where
  closed : Bool
  pending : List Nat
  deriving DecidableEq, Repr

/-- The result of a call of `Accept`: a connection, an error, or no return
(the receive blocks: the channel is open and no handshake is pending). -/
inductive Accepted where
  | conn (id : Nat)
  | err (msg : String)
  | blocked
  deriving DecidableEq, Repr

/-- Wait for the next connection (`Listener.Accept`). -/
def Listener.Accept (l : Listener) : Accepted × Listener :=
  if l.closed then (Accepted.err "socket closed", l)
  else
    match l.pending with
    | [] => (Accepted.blocked, l)
    | x :: rest => (Accepted.conn x, { l with pending := rest })

/-- Close the listener (`Listener.Close`): the error, and the channel
afterwards.  On an open channel a pending connection is received and
discarded, and `close(l.cConn)` leaves no sender behind. -/
def Listener.Close (l : Listener) : Option String × Listener :=
  if l.closed then (some "channel already closed", l)
  else (none, { closed := true, pending := [] })

/-- The operations of the listener a caller can perform after `Close`. -/
inductive ListenerOp where
  | accept
  | close
  deriving DecidableEq, Repr

/-- The outcome of one operation: for `Accept` the connection, if one was
returned, and for both the error message, if an error was returned. -/
structure Outcome where
  conn : Option Nat
  err : Option String
  deriving DecidableEq, Repr

/-- One operation on the listener. -/
def Listener.step (l : Listener) : ListenerOp → Outcome × Listener
  | ListenerOp.accept =>
    match l.Accept with
    | (Accepted.conn x, l1) => ({ conn := some x, err := none }, l1)
    | (Accepted.err msg, l1) => ({ conn := none, err := some msg }, l1)
    | (Accepted.blocked, l1) => ({ conn := none, err := none }, l1)
  | ListenerOp.close => ({ conn := none, err := (l.Close).1 }, (l.Close).2)

/-- A sequence of operations on the listener: the outcomes in order, and the
listener afterwards. -/
def Listener.run (l : Listener) : List ListenerOp → List Outcome × Listener
  | [] => ([], l)
  | op :: ops =>
    let r := l.step op
    let rs := Listener.run r.2 ops
    (r.1 :: rs.1, rs.2)

/-! ## Frames as they stand on the wire -/

/-- The bytes of one frame on the wire, by field: the two header bytes, the
length extension, the mask key and the payload as transmitted. -/
structure WireFrame where
  h0 : Byte
  h1 : Byte
  ext : List Byte
  key : List Byte
  payload : List Byte
  deriving DecidableEq, Repr

/-- The bytes of the frame in wire order. -/
def WireFrame.bytes (w : WireFrame) : List Byte :=
  [w.h0, w.h1] ++ w.ext ++ w.key ++ w.payload

/-- The payload length a header declares: the 7-bit length, or for the
sentinels 126 and 127 the big-endian value of the extension. -/
def declaredLen (len7 : Nat) (ext : List Byte) : Nat :=
  if len7 = 126 then beUint64 ([0, 0, 0, 0, 0, 0] ++ ext)
  else if len7 = 127 then beUint64 ext
  else len7

/-- The frame is laid out as its header says: reserved bits zero, an
extension of 2, 8 or 0 bytes after the 7-bit length, a 4-byte key exactly when
the mask bit is set, and a payload of the declared length. -/
def WireFrame.valid (w : WireFrame) : Prop :=
  w.h0 &&& 64 = 0 ∧ w.h0 &&& 32 = 0 ∧ w.h0 &&& 16 = 0
  ∧ w.ext.length = (if w.h1 &&& 127 = 126 then 2 else if w.h1 &&& 127 = 127 then 8 else 0)
  ∧ w.key.length = (if w.h1 &&& 128 ≠ 0 then 4 else 0)
  ∧ w.payload.length = declaredLen (w.h1 &&& 127) w.ext

instance instDecidableWireFrameValid (w : WireFrame) : Decidable w.valid := by
  unfold WireFrame.valid
  exact inferInstance

/-- The sizes of the transport reads that deliver the fields of the frame,
one read for each field that is present. -/
def WireFrame.reads (w : WireFrame) : List Nat :=
  [2] ++ (if w.ext = [] then [] else [w.ext.length])
    ++ (if w.key = [] then [] else [w.key.length])
    ++ (if w.payload = [] then [] else [w.payload.length])

/-! ## Arithmetic of the header and of the length field -/

theorem or_shift_eq (a b k : Nat) (h : b < 2 ^ k) : b ||| a <<< k = a * 2 ^ k + b := by
  rw [Nat.lor_comm, Nat.shiftLeft_eq, Nat.mul_comm, Nat.mul_add_lt_is_or h]

theorem beUint64_putUint16 (n : Nat) (h : n < 65536) :
    beUint64 ([0, 0, 0, 0, 0, 0] ++ putUint16 n) = n := by
  have h1 : n % 2 ^ 16 = n := Nat.mod_eq_of_lt (by omega)
  simp only [beUint64, putUint16, List.cons_append, List.nil_append, List.getD_cons_succ,
    List.getD_cons_zero, Nat.zero_shiftLeft, Nat.or_zero, h1]
  rw [or_shift_eq _ _ 8 (by omega)]
  simp only [Nat.shiftRight_eq_div_pow]
  norm_num
  omega

theorem beUint64_putUint64 (n : Nat) (h : n < 2 ^ 64) :
    beUint64 (putUint64 n) = n := by
  have h1 : n % 2 ^ 64 = n := Nat.mod_eq_of_lt h
  simp only [beUint64, putUint64, List.getD_cons_succ, List.getD_cons_zero, h1]
  simp only [Nat.shiftRight_eq_div_pow]
  rw [or_shift_eq _ _ 8 (by omega)]
  rw [or_shift_eq _ _ 16 (by omega)]
  rw [or_shift_eq _ _ 24 (by omega)]
  rw [or_shift_eq _ _ 32 (by omega)]
  rw [or_shift_eq _ _ 40 (by omega)]
  rw [or_shift_eq _ _ 48 (by omega)]
  rw [or_shift_eq _ _ 56 (by omega)]
  norm_num at h ⊢
  omega

theorem head0_bits (fin : Bool) (op : Nat) :
    ((((if fin then 128 else 0) ||| (op &&& 15)) &&& 128 ≠ 0) ↔ fin = true) ∧
    ((if fin then 128 else 0) ||| (op &&& 15)) &&& 64 = 0 ∧
    ((if fin then 128 else 0) ||| (op &&& 15)) &&& 32 = 0 ∧
    ((if fin then 128 else 0) ||| (op &&& 15)) &&& 16 = 0 ∧
    ((if fin then 128 else 0) ||| (op &&& 15)) &&& 15 = op &&& 15 := by
  have h : op &&& 15 < 16 := Nat.and_lt_two_pow op (by decide : 15 < 2 ^ 4)
  generalize op &&& 15 = x at h
  interval_cases x <;> cases fin <;> decide

theorem and15_of_lt (op : Nat) (h : op < 16) : op &&& 15 = op := by
  interval_cases op <;> decide

theorem head1_bits (masked : Bool) (v : Nat) (h : v < 128) :
    ((((if masked then 128 else 0) ||| v) &&& 128 ≠ 0) ↔ masked = true) ∧
    ((if masked then 128 else 0) ||| v) &&& 127 = v := by
  interval_cases v <;> cases masked <;> decide

theorem lenbits_small (n : Nat) (h : n < 126) : (n &&& 127) % 256 = n := by
  interval_cases n <;> decide

/-! ## The codec on a transport that serves every read and write in full -/

theorem unread_cons (a r : List Byte) (more : List ReadEvent) (ha : a ≠ []) :
    unread (a ++ r) more = ReadEvent.data (a ++ r) :: more := by
  unfold unread
  rw [if_neg]
  intro h
  exact ha (List.append_eq_nil.mp h).1

theorem Read_unread (c : Conn) (a r : List Byte) (more : List ReadEvent) (ha : a ≠ [])
    (h : c.inbox = unread (a ++ r) more) :
    c.Read a.length =
      (a, none, { c with inbox := unread r more, reads := c.reads ++ [a.length] }) := by
  rw [unread_cons a r more ha] at h
  unfold Conn.Read
  rw [h]
  by_cases hr : r = []
  · subst hr
    simp [unread]
  · have hlen : ¬ (a ++ r).length ≤ a.length := by
      have : 0 < r.length := List.length_pos.mpr hr
      simp only [List.length_append]; omega
    simp [unread, hr, hlen]

theorem writePayload_all (p : List Byte) (c : Conn) (fuel : Nat) (hw : c.wscript = [])
    (hf : 0 < fuel) :
    writePayload p fuel c 0 = some (none, { c with sent := c.sent ++ p }) := by
  cases fuel with
  | zero => omega
  | succ n =>
    by_cases hp : p = []
    · subst hp
      simp [writePayload]
    · have hl : 0 < p.length := List.length_pos.mpr hp
      rw [writePayload]
      simp only [hl, if_true, Conn.Write, hw, List.drop_zero]
      rw [writePayload.eq_def]
      simp

theorem WriteTo_all (f : Frame) (c : Conn) (hw : c.wscript = []) :
    f.WriteTo c = some (none, { c with sent := c.sent ++ f.wire }) := by
  unfold Frame.WriteTo
  have hh : (frameHead f).length = 2 := rfl
  simp only [Conn.Write, hw, hh]
  simp only [ne_eq, not_true_eq_false, if_false]
  cases hl : frameLbuf f <;> cases hm : f.Masked <;>
    simp [hw, writePayload_all, Frame.wire, hl, hm, List.append_assoc]


theorem xorMask_length (mask : List Byte) (m : Nat) (xs : List Byte) :
    (xorMask mask m xs).length = xs.length := by
  induction xs generalizing m with
  | nil => rfl
  | cons x xs ih => simp [xorMask, ih]

theorem readPayload_unread (masked : Bool) (mask p r : List Byte) (more : List ReadEvent)
    (c : Conn) (fuel : Nat) (hf : 0 < fuel) (h : c.inbox = unread (p ++ r) more) :
    readPayload masked mask p.length fuel c [] =
      some (Except.ok (if masked then xorMask mask 0 p else p),
        { c with inbox := unread r more,
                 reads := c.reads ++ (if p = [] then [] else [p.length]) }) := by
  by_cases hp : p = []
  · subst hp
    rw [readPayload.eq_def]
    cases c
    simp at h
    cases masked <;> simp [h, xorMask]
  · cases fuel with
    | zero => omega
    | succ n =>
      have hl : ¬ (0 = p.length) := by
        have : 0 < p.length := List.length_pos.mpr hp
        omega
      rw [readPayload.eq_def]
      simp only [List.length_nil, hl, if_false, Nat.sub_zero, Read_unread c p r more hp h]
      rw [readPayload.eq_def]
      cases masked <;> simp [hp, xorMask_length]


theorem readLength_small (c : Conn) (n : Nat) (h : n < 126) :
    readLength c n = (Except.ok n, c) := by
  unfold readLength
  rw [if_neg (by omega), if_neg (by omega)]

theorem readLength_126 (c : Conn) (n : Nat) (r : List Byte) (more : List ReadEvent)
    (hn : n < 65536) (h : c.inbox = unread (putUint16 n ++ r) more) :
    readLength c 126 =
      (Except.ok n, { c with inbox := unread r more, reads := c.reads ++ [2] }) := by
  unfold readLength
  have hr := Read_unread c (putUint16 n) r more (by simp [putUint16]) h
  have hl : (putUint16 n).length = 2 := rfl
  rw [hl] at hr
  simp only [if_true, hr, hl, ne_eq, not_true_eq_false, if_false, beUint64_putUint16 n hn]

theorem readLength_127 (c : Conn) (n : Nat) (r : List Byte) (more : List ReadEvent)
    (hn : n < 2 ^ 64) (h : c.inbox = unread (putUint64 n ++ r) more) :
    readLength c 127 =
      (Except.ok n, { c with inbox := unread r more, reads := c.reads ++ [8] }) := by
  unfold readLength
  have hr := Read_unread c (putUint64 n) r more (by simp [putUint64]) h
  have hl : (putUint64 n).length = 8 := rfl
  rw [hl] at hr
  rw [if_neg (by decide)]
  simp only [if_true, hr, hl, ne_eq, not_true_eq_false, if_false, beUint64_putUint64 n hn]

theorem readMask_true (c : Conn) (key r : List Byte) (more : List ReadEvent)
    (hk : key.length = 4) (h : c.inbox = unread (key ++ r) more) :
    readMask c true =
      (Except.ok key, { c with inbox := unread r more, reads := c.reads ++ [4] }) := by
  unfold readMask
  have hne : key ≠ [] := by
    intro h0; rw [h0] at hk; simp at hk
  have hr := Read_unread c key r more hne h
  rw [hk] at hr
  simp only [if_true, hr, hk, ne_eq, not_true_eq_false, if_false]

theorem readMask_false (c : Conn) : readMask c false = (Except.ok zeroMask, c) := by
  unfold readMask
  simp

theorem lenBits_lt (n : Nat) : lenBits n < 128 := by
  unfold lenBits
  split
  · rw [lenbits_small n (by assumption)]; omega
  · split <;> omega

theorem readLength_frame (f : Frame) (c : Conn) (r : List Byte) (more : List ReadEvent)
    (hlen : f.Payload.length < 2 ^ 64)
    (h : c.inbox = unread ((frameLbuf f).getD [] ++ r) more) :
    readLength c (lenBits f.Payload.length) =
      (Except.ok f.Payload.length,
        { c with inbox := unread r more,
                 reads := c.reads ++ (if f.Payload.length < 126 then []
                   else if f.Payload.length < 65536 then [2] else [8]) }) := by
  unfold frameLbuf at h
  unfold lenBits
  by_cases h1 : f.Payload.length < 126
  · rw [if_pos h1] at h
    rw [if_pos h1, if_pos h1, lenbits_small _ h1, readLength_small c _ h1]
    cases c
    simp at h
    simp [h]
  · rw [if_neg h1] at h
    rw [if_neg h1, if_neg h1]
    by_cases h2 : f.Payload.length < 65536
    · rw [if_pos h2] at h
      rw [if_pos h2, if_pos h2]
      exact readLength_126 c _ r more h2 h
    · rw [if_neg h2] at h
      rw [if_neg h2, if_neg h2]
      exact readLength_127 c _ r more hlen h

theorem readMask_frame (f : Frame) (c : Conn) (r : List Byte) (more : List ReadEvent)
    (hmask : f.Mask.length = 4)
    (h : c.inbox = unread ((if f.Masked then f.Mask else []) ++ r) more) :
    readMask c f.Masked =
      (Except.ok (if f.Masked then f.Mask else zeroMask),
        { c with inbox := unread r more,
                 reads := c.reads ++ (if f.Masked then [4] else []) }) := by
  cases hm : f.Masked
  · rw [hm] at h
    rw [readMask_false]
    cases c
    simp at h
    simp [h]
  · rw [hm] at h
    simp only [if_true] at h ⊢
    exact readMask_true c f.Mask r more hmask h

theorem ReadFrame_wire (f : Frame) (c : Conn) (rest : List Byte) (more : List ReadEvent)
    (hop : f.Opcode < 16) (hmask : f.Mask.length = 4) (hlen : f.Payload.length < 2 ^ 63)
    (h : c.inbox = unread (f.wire ++ rest) more) :
    ReadFrame c =
      some (Except.ok
        { Fin := f.Fin, Opcode := f.Opcode, Masked := f.Masked,
          Mask := if f.Masked then f.Mask else zeroMask, Len := f.Payload.length,
          Payload := if f.Masked then xorMask f.Mask 0 f.Payload else f.Payload },
        { c with inbox := unread rest more, reads := c.reads ++ frameReads f }) := by
  obtain ⟨hfin, h64, h32, h16, h15⟩ := head0_bits f.Fin f.Opcode
  obtain ⟨hmk, h127⟩ := head1_bits f.Masked (lenBits f.Payload.length) (lenBits_lt _)
  have hfinB : decide (((if f.Fin then 128 else 0) ||| (f.Opcode &&& 15)) &&& 128 ≠ 0) = f.Fin := by
    rw [Bool.eq_iff_iff]; simpa using hfin
  have hmkB : decide (((if f.Masked then 128 else 0) ||| lenBits f.Payload.length) &&& 128 ≠ 0)
      = f.Masked := by
    rw [Bool.eq_iff_iff]; simpa using hmk
  have hw : f.wire ++ rest = frameHead f ++
      ((frameLbuf f).getD [] ++ ((if f.Masked then f.Mask else []) ++ (f.Payload ++ rest))) := by
    simp [Frame.wire, List.append_assoc]
  rw [hw] at h
  have hr := Read_unread c (frameHead f) _ more (by simp [frameHead]) h
  have hl : (frameHead f).length = 2 := rfl
  rw [hl] at hr
  unfold ReadFrame
  rw [hr]
  simp only [hl, ne_eq, not_true_eq_false, if_false]
  simp only [frameHead, List.getD_cons_zero, List.getD_cons_succ]
  simp only [ne_eq] at hfinB hmkB
  simp only [and15_of_lt f.Opcode hop] at h64 h32 h16 h15 hfinB
  simp only [h64, h32, h16, h15, h127, hfinB, hmkB, and15_of_lt f.Opcode hop,
    not_true_eq_false, decide_False, Bool.or_self, Bool.false_eq_true, if_false]
  rw [readLength_frame f _ _ more (by omega) rfl]
  simp only []
  rw [readMask_frame f _ _ more hmask rfl]
  simp only []
  rw [if_neg (by omega : ¬ (2 ^ 63 ≤ f.Payload.length))]
  rw [readPayload_unread f.Masked _ f.Payload rest more _ _ (Nat.succ_pos _) rfl]
  simp only [frameReads, List.append_assoc]
  cases f.Masked <;> simp

/-! ## Totality of the loops -/

theorem writePayload_total (p : List Byte) (fuel : Nat) (c : Conn) (l : Nat)
    (h : c.wscript.length < fuel) : ∃ r, writePayload p fuel c l = some r := by
  induction fuel generalizing c l with
  | zero => omega
  | succ n ih =>
    rw [writePayload.eq_def]
    by_cases hl : l < p.length
    · simp only [hl, if_true]
      cases hs : c.wscript with
      | nil =>
        simp only [Conn.Write, hs]
        rw [writePayload.eq_def]
        have : ¬ (l + (p.length - l) < p.length) := by omega
        simp [this]
      | cons e rest =>
        rw [hs] at h
        simp only [List.length_cons] at h
        cases e with
        | accept m =>
          simp only [Conn.Write, hs]
          exact ih _ _ (by simpa using (by omega : rest.length < n))
        | fail m code =>
          simp [Conn.Write, hs]
    · simp [hl]

theorem WriteTo_total (f : Frame) (c : Conn) : ∃ r, f.WriteTo c = some r := by
  unfold Frame.WriteTo
  rcases hw : c.Write (frameHead f) with ⟨n, e, c1⟩
  cases e with
  | some e => exact ⟨_, rfl⟩
  | none =>
    simp only []
    by_cases hn : n = 2
    · simp only [hn, ne_eq, not_true_eq_false, if_false]
      exact writePayload_total _ _ _ _ (Nat.lt_succ_self _)
    · simp [hn]

theorem Close_total (c : ServerConnection) :
    ∃ e c1, c.Close = some (e, c1) ∧ c1.closed = true := by
  unfold ServerConnection.Close
  obtain ⟨⟨e, c1⟩, hr⟩ := WriteTo_total
    { Fin := true, Opcode := FrameType_Close, Masked := false, Mask := zeroMask,
      Len := 0, Payload := [] } c.conn
  rw [hr]
  exact ⟨none, c1.Close, rfl, rfl⟩

theorem readPayload_total (masked : Bool) (mask : List Byte) (total fuel : Nat) (c : Conn)
    (got : List Byte) (hle : got.length ≤ total)
    (h : got.length = total ∨ c.inbox.length < fuel) :
    ∃ r, readPayload masked mask total fuel c got = some r := by
  induction fuel generalizing c got with
  | zero =>
    rcases h with h | h
    · rw [readPayload.eq_def]; simp [h]
    · omega
  | succ n ih =>
    rw [readPayload.eq_def]
    by_cases hg : got.length = total
    · simp [hg]
    · have hin : c.inbox.length < n + 1 := by
        rcases h with h | h
        · exact absurd h hg
        · exact h
      simp only [hg, if_false]
      cases hi : c.inbox with
      | nil => simp [Conn.Read, hi]
      | cons e rest =>
        rw [hi] at hin
        simp only [List.length_cons] at hin
        cases e with
        | fail code => simp [Conn.Read, hi]
        | data seg =>
          simp only [Conn.Read, hi]
          by_cases hs : seg.length ≤ total - got.length
          · simp only [hs, if_true]
            refine ih _ _ ?_ (Or.inr (by simpa using (by omega : rest.length < n)))
            cases masked <;> simp [xorMask_length] <;> omega
          · simp only [hs, if_false]
            have hk : (List.take (total - got.length) seg).length = total - got.length := by
              simp only [List.length_take]; omega
            have hlen : (got ++ (if masked = true
                then xorMask mask got.length (List.take (total - got.length) seg)
                else List.take (total - got.length) seg)).length = total := by
              cases masked <;> simp [xorMask_length, hk] <;> omega
            exact ih _ _ (by omega) (Or.inl hlen)

/-! ## Which errors the reader can report -/

theorem Read_err (c : Conn) (k : Nat) (bs : List Byte) (e : Err) (c1 : Conn)
    (h : c.Read k = (bs, some e, c1)) : e ≠ Err.invalidFrameHeader := by
  unfold Conn.Read at h
  cases hi : c.inbox with
  | nil => rw [hi] at h; simp at h; rw [← h.2.1]; simp
  | cons ev rest =>
    rw [hi] at h
    cases ev with
    | fail code => simp at h; rw [← h.2.1]; simp
    | data seg =>
      simp only [] at h
      split at h <;> simp at h

theorem readLength_err (c : Conn) (n : Nat) (e : Err) (c1 : Conn)
    (h : readLength c n = (Except.error e, c1)) : e ≠ Err.invalidFrameHeader := by
  unfold readLength at h
  split at h
  · rcases hr : c.Read 2 with ⟨bs, eo, c2⟩
    rw [hr] at h
    cases eo with
    | some e2 =>
      simp only [Prod.mk.injEq, Except.error.injEq] at h
      rw [← h.1]; exact Read_err c 2 bs e2 c2 hr
    | none =>
      simp only [] at h
      split at h
      · simp only [Prod.mk.injEq, Except.error.injEq] at h
        rw [← h.1]; simp
      · simp at h
  · split at h
    · rcases hr : c.Read 8 with ⟨bs, eo, c2⟩
      rw [hr] at h
      cases eo with
      | some e2 =>
        simp only [Prod.mk.injEq, Except.error.injEq] at h
        rw [← h.1]; exact Read_err c 8 bs e2 c2 hr
      | none =>
        simp only [] at h
        split at h
        · simp only [Prod.mk.injEq, Except.error.injEq] at h
          rw [← h.1]; simp
        · simp at h
    · simp at h

theorem readMask_err (c : Conn) (m : Bool) (e : Err) (c1 : Conn)
    (h : readMask c m = (Except.error e, c1)) : e ≠ Err.invalidFrameHeader := by
  unfold readMask at h
  split at h
  · rcases hr : c.Read 4 with ⟨bs, eo, c2⟩
    rw [hr] at h
    cases eo with
    | some e2 =>
      simp only [Prod.mk.injEq, Except.error.injEq] at h
      rw [← h.1]; exact Read_err c 4 bs e2 c2 hr
    | none =>
      simp only [] at h
      split at h
      · simp only [Prod.mk.injEq, Except.error.injEq] at h
        rw [← h.1]; simp
      · simp at h
  · simp at h

theorem readPayload_err (masked : Bool) (mask : List Byte) (total fuel : Nat) (c : Conn)
    (got : List Byte) (e : Err) (c1 : Conn)
    (h : readPayload masked mask total fuel c got = some (Except.error e, c1)) :
    e ≠ Err.invalidFrameHeader := by
  induction fuel generalizing c got with
  | zero =>
    rw [readPayload.eq_def] at h
    by_cases hg : got.length = total <;> simp [hg] at h
  | succ n ih =>
    rw [readPayload.eq_def] at h
    by_cases hg : got.length = total
    · simp [hg] at h
    · simp only [hg, if_false] at h
      rcases hr : c.Read (total - got.length) with ⟨bs, eo, c2⟩
      rw [hr] at h
      cases eo with
      | some e2 =>
        simp only [Option.some.injEq, Prod.mk.injEq, Except.error.injEq] at h
        rw [← h.1]; exact Read_err c _ bs e2 c2 hr
      | none => exact ih _ _ h

theorem ReadFrame_total (c : Conn) : ∃ r, ReadFrame c = some r := by
  unfold ReadFrame
  rcases hr : c.Read 2 with ⟨head, eo, c1⟩
  cases eo with
  | some e => exact ⟨_, rfl⟩
  | none =>
    simp only []
    split
    · exact ⟨_, rfl⟩
    · split
      · exact ⟨_, rfl⟩
      · rcases hl : readLength c1 (head.getD 1 0 &&& 127) with ⟨rl, c2⟩
        cases rl with
        | error e => exact ⟨_, rfl⟩
        | ok len =>
          simp only []
          rcases hm : readMask c2 (decide (head.getD 1 0 &&& 128 ≠ 0)) with ⟨rm, c3⟩
          cases rm with
          | error e => exact ⟨_, rfl⟩
          | ok mask =>
            simp only []
            by_cases hpanic : 2 ^ 63 ≤ len
            · rw [if_pos hpanic]
              exact ⟨_, rfl⟩
            · rw [if_neg hpanic]
              obtain ⟨⟨rp, c4⟩, hp⟩ := readPayload_total (decide (head.getD 1 0 &&& 128 ≠ 0))
                mask len (c3.inbox.length + 1) c3 [] (Nat.zero_le _)
                (Or.inr (Nat.lt_succ_self _))
              rw [hp]
              cases rp with
              | error e => exact ⟨_, rfl⟩
              | ok payload => exact ⟨_, rfl⟩

/-- The panic of the allocation: the header `82 7F` announces, with eight
extension bytes `FF`, a payload of `2^64 - 1` bytes; `ReadFrame` reads the
header and the extension and then panics in `make`, before any payload byte is
read. -/
theorem ReadFrame_makeslice_panic :
    ReadFrame (Conn.ofBytes [130, 127, 255, 255, 255, 255, 255, 255, 255, 255, 1, 2, 3])
      = some (Except.error Err.makeslicePanic,
          { Conn.idle with inbox := [ReadEvent.data [1, 2, 3]], reads := [2, 8] }) := by
  decide

/-! ## C1: round trip of a frame through `WriteTo` and `ReadFrame` -/

/-- C1 (counterexample): the frame with `Masked` unset, key `[1,2,3,4]` and
payload `[7]` is well-formed, `WriteTo` puts `82 01 07` on the wire (no key),
and `ReadFrame` decodes these bytes to a frame whose key is zero, which is not
the frame written. -/
theorem roundtrip_unmasked_key_counterexample :
    Frame.WriteTo
        { Fin := true, Opcode := FrameType_Binary, Masked := false, Mask := [1, 2, 3, 4],
          Len := 1, Payload := [7] } Conn.idle
      = some (none, { Conn.idle with sent := [130, 1, 7] })
    ∧ ReadFrame (Conn.ofBytes [130, 1, 7])
      = some (Except.ok
          { Fin := true, Opcode := FrameType_Binary, Masked := false, Mask := [0, 0, 0, 0],
            Len := 1, Payload := [7] },
          { Conn.idle with reads := [2, 1] })
    ∧ ({ Fin := true, Opcode := FrameType_Binary, Masked := false, Mask := [0, 0, 0, 0],
         Len := 1, Payload := [7] } : Frame)
      ≠ { Fin := true, Opcode := FrameType_Binary, Masked := false, Mask := [1, 2, 3, 4],
          Len := 1, Payload := [7] } := by
  decide

/-- C1 (amended): for every well-formed frame `f` (opcode below 16, `Len` equal
to the payload length, a 4-byte key, payload shorter than `2^63`), `WriteTo` on
a transport that accepts every write succeeds, and `ReadFrame` on any transport
that delivers the written bytes completely returns a frame with the same `Fin`,
`Opcode`, `Masked` and `Len`, consuming exactly those bytes; the decoded key is
the key of `f` when `f` is masked and zero otherwise, and the decoded payload
is the payload of `f` when `f` is not masked. -/
theorem roundtrip_amended (f : Frame) (w : Conn)
    (hop : f.Opcode < 16) (hlen : f.Len = f.Payload.length) (hmask : f.Mask.length = 4)
    (hsz : f.Payload.length < 2 ^ 63) (hw : w.wscript = []) :
    ∃ bytes : List Byte,
      f.WriteTo w = some (none, { w with sent := w.sent ++ bytes }) ∧
      ∀ (r : Conn) (rest : List Byte) (more : List ReadEvent),
        r.inbox = unread (bytes ++ rest) more →
        ∃ (g : Frame) (r1 : Conn),
          ReadFrame r = some (Except.ok g, r1) ∧ r1.inbox = unread rest more ∧
          g.Fin = f.Fin ∧ g.Opcode = f.Opcode ∧ g.Masked = f.Masked ∧ g.Len = f.Len ∧
          g.Mask = (if f.Masked then f.Mask else zeroMask) ∧
          (f.Masked = false → g.Payload = f.Payload) := by
  refine ⟨f.wire, WriteTo_all f w hw, ?_⟩
  intro r rest more hr
  refine ⟨_, _, ReadFrame_wire f r rest more hop hmask hsz hr, rfl, rfl, rfl, rfl, hlen.symm,
    rfl, ?_⟩
  intro hm
  simp [hm]

/-- C1 (witness): the amended round trip at the unmasked frame with key
`[1,2,3,4]` and payload `[7]`. -/
theorem roundtrip_amended_witness :
    ∃ bytes : List Byte,
      Frame.WriteTo { Fin := true, Opcode := 2, Masked := false, Mask := [1, 2, 3, 4], Len := 1,
                      Payload := [7] } Conn.idle
        = some (none, { Conn.idle with sent := Conn.idle.sent ++ bytes }) ∧
      ∀ (r : Conn) (rest : List Byte) (more : List ReadEvent),
        r.inbox = unread (bytes ++ rest) more →
        ∃ (g : Frame) (r1 : Conn),
          ReadFrame r = some (Except.ok g, r1) ∧ r1.inbox = unread rest more ∧
          g.Fin = true ∧ g.Opcode = 2 ∧ g.Masked = false ∧ g.Len = 1 ∧
          g.Mask = zeroMask ∧ ((false : Bool) = false → g.Payload = [7]) :=
  roundtrip_amended
    { Fin := true, Opcode := 2, Masked := false, Mask := [1, 2, 3, 4], Len := 1, Payload := [7] }
    Conn.idle (by decide) rfl rfl (by decide) rfl

/-! ## C2: residue of a message larger than the buffer -/

/-- C2: a 10-byte message `0,1,...,9` arrives as one complete Binary frame and
is read with a 4-byte buffer.  The first `Read` returns 4 and the bytes
`0,1,2,3`, and inside the call the remaining 6 bytes are stored in the
receiver copy.  The connection the caller holds has no residue, so the second
`Read`, with a 6-byte buffer, goes to the transport (a third transport read of
2 bytes is made) and returns 0 bytes and `io.EOF` instead of the 6 remaining
bytes. -/
theorem read_residue_not_retained :
    ServerConnection.Read
        { conn := Conn.ofBytes [130, 10, 0, 1, 2, 3, 4, 5, 6, 7, 8, 9], buffered := [] }
        [0, 0, 0, 0]
      = some { n := 4, err := none, b := [0, 1, 2, 3],
               recv := { conn := { Conn.idle with reads := [2, 10] },
                         buffered := [4, 5, 6, 7, 8, 9] } }
    ∧ ServerConnection.afterRead
        { conn := Conn.ofBytes [130, 10, 0, 1, 2, 3, 4, 5, 6, 7, 8, 9], buffered := [] }
        { n := 4, err := none, b := [0, 1, 2, 3],
          recv := { conn := { Conn.idle with reads := [2, 10] },
                    buffered := [4, 5, 6, 7, 8, 9] } }
      = { conn := { Conn.idle with reads := [2, 10] }, buffered := [] }
    ∧ ServerConnection.Read { conn := { Conn.idle with reads := [2, 10] }, buffered := [] }
        [0, 0, 0, 0, 0, 0]
      = some { n := 0, err := some Err.eof, b := [0, 0, 0, 0, 0, 0],
               recv := { conn := { Conn.idle with reads := [2, 10, 2] }, buffered := [] } } := by
  decide

/-! ## C3: fragmented messages -/

/-- C3: the peer sends a message in three fragments, a Binary frame with
payload `[11]` and fin unset, a Continuation frame with payload `[22]` and fin
unset, and a Continuation frame with payload `[33]` and fin set.  `Read` with a
3-byte buffer reads all three frames (seven transport reads), drops the
payloads of the two Continuation frames, and returns 0 bytes and the error of
the next transport read, leaving the buffer untouched, instead of returning
3 and `[11, 22, 33]`. -/
theorem read_continuation_dropped :
    ServerConnection.Read
        { conn := Conn.ofBytes [2, 1, 11, 0, 1, 22, 128, 1, 33], buffered := [] } [0, 0, 0]
      = some { n := 0, err := some Err.eof, b := [0, 0, 0],
               recv := { conn := { Conn.idle with reads := [2, 1, 2, 1, 2, 1, 2] },
                         buffered := [] } } := by
  decide

/-! ## C4: the answer to a Ping -/

/-- C4 (counterexample): the peer sends the Ping frame `89 01 07`, with the
one-byte payload `[7]`.  `Read` answers with `8A 01 07`, a Pong frame whose
payload on the wire is the payload of the Ping, not an empty one. -/
theorem pong_echoes_ping_counterexample :
    ServerConnection.Read { conn := Conn.ofBytes [137, 1, 7], buffered := [] } [0]
      = some { n := 0, err := some Err.eof, b := [0],
               recv := { conn := { Conn.idle with sent := [138, 1, 7], reads := [2, 1, 2] },
                         buffered := [] } } := by
  decide

/-- C4 (amended): when the receive loop of `Read` decodes an unmasked Ping
frame `g` and the transport accepts every write, the loop writes one Pong
frame and goes on: first byte the fin bit of the Ping with opcode `0xA`, then
the length of the Ping's payload in its length class with the mask bit unset,
then the Ping's payload itself, unchanged. -/
theorem ping_answered_with_its_payload (c c1 : Conn) (g : Frame) (fuel : Nat) (buf : List Byte)
    (hr : ReadFrame c = some (Except.ok g, c1)) (hop : g.Opcode = FrameType_Ping)
    (hm : g.Masked = false) (hw : c1.wscript = []) :
    recvLoop (fuel + 1) c buf
      = recvLoop fuel
          { c1 with sent := c1.sent ++
              ([(if g.Fin then 128 else 0) ||| 10, lenBits g.Payload.length]
                ++ (frameLbuf g).getD [] ++ g.Payload) } buf := by
  rw [recvLoop, hr]
  simp only [hop, if_true]
  rw [WriteTo_all _ _ hw]
  have h10 : (10 &&& 15 : Nat) = 10 := by decide
  simp [Frame.wire, frameHead, frameLbuf, hm, FrameType_Pong, h10]

/-- C4 (witness): the amended statement at the Ping frame `89 01 07`. -/
theorem ping_answered_with_its_payload_witness :
    recvLoop (1 + 1) (Conn.ofBytes [137, 1, 7]) []
      = recvLoop 1 { Conn.idle with sent := [138, 1, 7], reads := [2, 1] } [] :=
  ping_answered_with_its_payload (Conn.ofBytes [137, 1, 7]) { Conn.idle with reads := [2, 1] }
    { Fin := true, Opcode := 9, Masked := false, Mask := zeroMask, Len := 1, Payload := [7] }
    1 [] (by decide) (by decide) rfl rfl

/-! ## C5: a Close frame from the peer -/

/-- C5: when `ReadFrame` decodes a Close frame `g` from the transport, the
receive loop of `Read` stops at once, whatever it has assembled so far, with
the connection-closed error that carries the payload of `g`, and the transport
is closed; `Read` on a connection without residue returns 0 bytes and that
error, leaves the caller's buffer untouched, and the transport is closed when
it returns.  The message of the error is `connection closed: ` followed by the
payload bytes. -/
theorem close_frame_ends_read (c c1 : Conn) (g : Frame)
    (hr : ReadFrame c = some (Except.ok g, c1)) (hop : g.Opcode = FrameType_Close) :
    (∀ (fuel : Nat) (buf : List Byte), ∃ c2 : Conn,
        recvLoop (fuel + 1) c buf = some (Except.error (Err.connectionClosed g.Payload), c2)
        ∧ c2.closed = true)
    ∧ (∀ b : List Byte, ∃ c2 : Conn,
        ServerConnection.Read { conn := c, buffered := [] } b
          = some { n := 0, err := some (Err.connectionClosed g.Payload), b := b,
                   recv := { conn := c2, buffered := [] } }
        ∧ c2.closed = true)
    ∧ (Err.connectionClosed g.Payload).Error = "connection closed: " ++ fmtBytes g.Payload := by
  have step : ∀ (fuel : Nat) (buf : List Byte), ∃ c2 : Conn,
      recvLoop (fuel + 1) c buf = some (Except.error (Err.connectionClosed g.Payload), c2)
      ∧ c2.closed = true := by
    intro fuel buf
    obtain ⟨e, c2, hc, hcl⟩ := Close_total { conn := c1, buffered := [] }
    refine ⟨c2, ?_, hcl⟩
    rw [recvLoop, hr]
    have h1 : ¬ (g.Opcode = FrameType_Ping) := by rw [hop]; decide
    have h2 : ¬ (g.Opcode = FrameType_Pong) := by rw [hop]; decide
    simp only []
    rw [if_neg h1, if_neg h2, if_pos hop, hc]
  refine ⟨step, ?_, rfl⟩
  intro b
  obtain ⟨c2, h, hcl⟩ := step c.pending []
  refine ⟨c2, ?_, hcl⟩
  simp [ServerConnection.Read, h]

/-- C5 (witness): the peer sends the Close frame `88 03 62 79 65`, with the
payload `bye`. -/
theorem close_frame_ends_read_witness :
    (∀ (fuel : Nat) (buf : List Byte), ∃ c2 : Conn,
        recvLoop (fuel + 1) (Conn.ofBytes [136, 3, 98, 121, 101]) buf
          = some (Except.error (Err.connectionClosed [98, 121, 101]), c2)
        ∧ c2.closed = true)
    ∧ (∀ b : List Byte, ∃ c2 : Conn,
        ServerConnection.Read { conn := Conn.ofBytes [136, 3, 98, 121, 101], buffered := [] } b
          = some { n := 0, err := some (Err.connectionClosed [98, 121, 101]), b := b,
                   recv := { conn := c2, buffered := [] } }
        ∧ c2.closed = true)
    ∧ (Err.connectionClosed [98, 121, 101]).Error
        = "connection closed: " ++ fmtBytes [98, 121, 101] :=
  close_frame_ends_read (Conn.ofBytes [136, 3, 98, 121, 101]) { Conn.idle with reads := [2, 3] }
    { Fin := true, Opcode := 8, Masked := false, Mask := zeroMask, Len := 3,
      Payload := [98, 121, 101] } (by decide) (by decide)

/-! ## C6, C7: the length classes and the frame `Write` emits -/

theorem putUint16_bytes (n : Nat) (h : n < 65536) : putUint16 n = [n / 256, n % 256] := by
  have h1 : n % 2 ^ 16 = n := Nat.mod_eq_of_lt (by omega)
  simp only [putUint16, h1, Nat.shiftRight_eq_div_pow]
  have h2 : n / 2 ^ 8 % 256 = n / 256 := by
    norm_num
    omega
  rw [h2]

theorem putUint64_bytes (n : Nat) (h : n < 2 ^ 64) :
    putUint64 n = [n / 2 ^ 56 % 256, n / 2 ^ 48 % 256, n / 2 ^ 40 % 256, n / 2 ^ 32 % 256,
                   n / 2 ^ 24 % 256, n / 2 ^ 16 % 256, n / 2 ^ 8 % 256, n % 256] := by
  have h1 : n % 2 ^ 64 = n := Nat.mod_eq_of_lt h
  simp only [putUint64, h1, Nat.shiftRight_eq_div_pow]

/-- The length bits and the length extension of a frame, by length class. -/
theorem length_classes (f : Frame) (hn : f.Payload.length < 2 ^ 63) :
    (f.Payload.length < 126 →
      lenBits f.Payload.length = f.Payload.length ∧ (frameLbuf f).getD [] = []) ∧
    (126 ≤ f.Payload.length → f.Payload.length < 65536 →
      lenBits f.Payload.length = 126 ∧
      (frameLbuf f).getD [] = [f.Payload.length / 256, f.Payload.length % 256]) ∧
    (65536 ≤ f.Payload.length →
      lenBits f.Payload.length = 127 ∧
      (frameLbuf f).getD [] =
        [f.Payload.length / 2 ^ 56 % 256, f.Payload.length / 2 ^ 48 % 256,
         f.Payload.length / 2 ^ 40 % 256, f.Payload.length / 2 ^ 32 % 256,
         f.Payload.length / 2 ^ 24 % 256, f.Payload.length / 2 ^ 16 % 256,
         f.Payload.length / 2 ^ 8 % 256, f.Payload.length % 256]) := by
  refine ⟨?_, ?_, ?_⟩
  · intro h
    simp [lenBits, frameLbuf, h, lenbits_small _ h]
  · intro h1 h2
    have h3 : ¬ (f.Payload.length < 126) := by omega
    simp [lenBits, frameLbuf, h3, h2, putUint16_bytes _ h2]
  · intro h1
    have h3 : ¬ (f.Payload.length < 126) := by omega
    have h4 : ¬ (f.Payload.length < 65536) := by omega
    have h5 : f.Payload.length < 2 ^ 64 := by omega
    simp only [lenBits, frameLbuf, h3, h4, if_false, Option.getD_some, putUint64_bytes _ h5,
      and_self]

/-- C6: on a transport that accepts every write, `WriteTo` succeeds and puts
on the wire two header bytes, a length extension, the key when the frame is
masked, and the payload.  For a payload of `n` bytes (`n` below `2^63`, the
bound of a Go slice): if `n < 126` the low 7 bits of the second header byte are
`n` and the extension is empty; if `126 ≤ n < 65536` those bits are 126 and the
extension is the 2 bytes of `n`, big-endian; otherwise those bits are 127 and
the extension is the 8 bytes of `n`, big-endian. -/
theorem WriteTo_length_class (f : Frame) (c : Conn) (hw : c.wscript = [])
    (hn : f.Payload.length < 2 ^ 63) :
    ∃ (h0 h1 : Byte) (ext : List Byte),
      f.WriteTo c = some (none,
        { c with sent := c.sent ++
            ([h0, h1] ++ ext ++ (if f.Masked then f.Mask else []) ++ f.Payload) }) ∧
      (f.Payload.length < 126 → h1 &&& 127 = f.Payload.length ∧ ext = []) ∧
      (126 ≤ f.Payload.length → f.Payload.length < 65536 →
        h1 &&& 127 = 126 ∧ ext = [f.Payload.length / 256, f.Payload.length % 256]) ∧
      (65536 ≤ f.Payload.length →
        h1 &&& 127 = 127 ∧
        ext = [f.Payload.length / 2 ^ 56 % 256, f.Payload.length / 2 ^ 48 % 256,
               f.Payload.length / 2 ^ 40 % 256, f.Payload.length / 2 ^ 32 % 256,
               f.Payload.length / 2 ^ 24 % 256, f.Payload.length / 2 ^ 16 % 256,
               f.Payload.length / 2 ^ 8 % 256, f.Payload.length % 256]) := by
  obtain ⟨ha, hb, hc⟩ := length_classes f hn
  have h127 := (head1_bits f.Masked (lenBits f.Payload.length) (lenBits_lt _)).2
  refine ⟨(if f.Fin then 128 else 0) ||| (f.Opcode &&& 15),
    (if f.Masked then 128 else 0) ||| lenBits f.Payload.length, (frameLbuf f).getD [],
    ?_, ?_, ?_, ?_⟩
  · rw [WriteTo_all f c hw]; rfl
  · intro h; rw [h127]; exact ha h
  · intro h1 h2; rw [h127]; exact hb h1 h2
  · intro h; rw [h127]; exact hc h

/-- C6 (witness): an unmasked Binary frame with the payload `1, 2, 3` on an
idle transport. -/
theorem WriteTo_length_class_witness :
    Conn.idle.wscript = [] ∧ [1, 2, 3].length < 2 ^ 63 ∧
    ∃ (h0 h1 : Byte) (ext : List Byte),
      Frame.WriteTo { Fin := true, Opcode := 2, Masked := false, Mask := zeroMask, Len := 3,
                      Payload := [1, 2, 3] } Conn.idle
        = some (none, { Conn.idle with sent := Conn.idle.sent ++
            ([h0, h1] ++ ext ++ (if false then zeroMask else []) ++ [1, 2, 3]) }) ∧
      ([1, 2, 3].length < 126 → h1 &&& 127 = [1, 2, 3].length ∧ ext = []) ∧
      (126 ≤ [1, 2, 3].length → [1, 2, 3].length < 65536 →
        h1 &&& 127 = 126 ∧ ext = [[1, 2, 3].length / 256, [1, 2, 3].length % 256]) ∧
      (65536 ≤ [1, 2, 3].length →
        h1 &&& 127 = 127 ∧
        ext = [[1, 2, 3].length / 2 ^ 56 % 256, [1, 2, 3].length / 2 ^ 48 % 256,
               [1, 2, 3].length / 2 ^ 40 % 256, [1, 2, 3].length / 2 ^ 32 % 256,
               [1, 2, 3].length / 2 ^ 24 % 256, [1, 2, 3].length / 2 ^ 16 % 256,
               [1, 2, 3].length / 2 ^ 8 % 256, [1, 2, 3].length % 256]) :=
  ⟨rfl, by decide,
    WriteTo_length_class
      { Fin := true, Opcode := 2, Masked := false, Mask := zeroMask, Len := 3,
        Payload := [1, 2, 3] } Conn.idle rfl (by decide)⟩

theorem and128_of_lt (v : Nat) (h : v < 128) : v &&& 128 = 0 := by
  interval_cases v <;> decide

/-- C7: on a transport that accepts every write, `Write(b)` returns `len(b)`
and a nil error, and the transport receives exactly one frame: the byte `0x82`
(fin set, reserved bits zero, opcode Binary), a second byte with the mask bit
unset that holds the length bits of `len(b)`, the length extension of the
length class of `len(b)`, no key, and then the bytes of `b` unchanged.  Here
`len(b)` is below `2^63`, the bound of a Go slice. -/
theorem Write_emits_one_binary_frame (c : ServerConnection) (b : List Byte)
    (hw : c.conn.wscript = []) (hn : b.length < 2 ^ 63) :
    ∃ (h1 : Byte) (ext : List Byte),
      c.Write b = some (b.length, none,
        { c.conn with sent := c.conn.sent ++ ([130, h1] ++ ext ++ b) }) ∧
      h1 &&& 128 = 0 ∧
      (b.length < 126 → h1 = b.length ∧ ext = []) ∧
      (126 ≤ b.length → b.length < 65536 →
        h1 = 126 ∧ ext = [b.length / 256, b.length % 256]) ∧
      (65536 ≤ b.length →
        h1 = 127 ∧
        ext = [b.length / 2 ^ 56 % 256, b.length / 2 ^ 48 % 256, b.length / 2 ^ 40 % 256,
               b.length / 2 ^ 32 % 256, b.length / 2 ^ 24 % 256, b.length / 2 ^ 16 % 256,
               b.length / 2 ^ 8 % 256, b.length % 256]) := by
  obtain ⟨ha, hb, hc⟩ := length_classes
    { Fin := true, Opcode := FrameType_Binary, Masked := false, Mask := zeroMask,
      Len := b.length % 2 ^ 64, Payload := b } hn
  refine ⟨lenBits b.length,
    (frameLbuf { Fin := true, Opcode := FrameType_Binary, Masked := false, Mask := zeroMask,
                 Len := b.length % 2 ^ 64, Payload := b }).getD [], ?_,
    and128_of_lt _ (lenBits_lt _), ha, hb, hc⟩
  unfold ServerConnection.Write
  rw [WriteTo_all _ _ hw]
  have h130 : ((128 : Nat) ||| (FrameType_Binary &&& 15)) = 130 := by decide
  simp [Frame.wire, frameHead, h130]

/-- C7 (witness): `Write` of the three bytes `1, 2, 3` on an idle transport. -/
theorem Write_emits_one_binary_frame_witness :
    Conn.idle.wscript = [] ∧ [1, 2, 3].length < 2 ^ 63 ∧
    ∃ (h1 : Byte) (ext : List Byte),
      ServerConnection.Write { conn := Conn.idle, buffered := [] } [1, 2, 3]
        = some ([1, 2, 3].length, none,
            { Conn.idle with sent := Conn.idle.sent ++ ([130, h1] ++ ext ++ [1, 2, 3]) }) ∧
      h1 &&& 128 = 0 ∧
      ([1, 2, 3].length < 126 → h1 = [1, 2, 3].length ∧ ext = []) ∧
      (126 ≤ [1, 2, 3].length → [1, 2, 3].length < 65536 →
        h1 = 126 ∧ ext = [[1, 2, 3].length / 256, [1, 2, 3].length % 256]) ∧
      (65536 ≤ [1, 2, 3].length →
        h1 = 127 ∧
        ext = [[1, 2, 3].length / 2 ^ 56 % 256, [1, 2, 3].length / 2 ^ 48 % 256,
               [1, 2, 3].length / 2 ^ 40 % 256, [1, 2, 3].length / 2 ^ 32 % 256,
               [1, 2, 3].length / 2 ^ 24 % 256, [1, 2, 3].length / 2 ^ 16 % 256,
               [1, 2, 3].length / 2 ^ 8 % 256, [1, 2, 3].length % 256]) :=
  ⟨rfl, by decide,
    Write_emits_one_binary_frame { conn := Conn.idle, buffered := [] } [1, 2, 3] rfl (by decide)⟩

/-! ## C8: masking on the write side -/

/-- C8: the masked frame with key `[1,2,3,4]` and payload `[5,6]` is written
to an idle transport as `82 82 01 02 03 04 05 06`: the two payload bytes after
the key are the payload itself, not `5 XOR 1 = 4` and `6 XOR 2 = 4`.  A reader
of these bytes, which unmasks them with the key, decodes the payload
`[4, 4]`. -/
theorem WriteTo_does_not_mask :
    Frame.WriteTo
        { Fin := true, Opcode := FrameType_Binary, Masked := true, Mask := [1, 2, 3, 4],
          Len := 2, Payload := [5, 6] } Conn.idle
      = some (none, { Conn.idle with sent := [130, 130, 1, 2, 3, 4, 5, 6] })
    ∧ xorMask [1, 2, 3, 4] 0 [5, 6] = [4, 4]
    ∧ ReadFrame (Conn.ofBytes [130, 130, 1, 2, 3, 4, 5, 6])
      = some (Except.ok
          { Fin := true, Opcode := FrameType_Binary, Masked := true, Mask := [1, 2, 3, 4],
            Len := 2, Payload := [4, 4] },
          { Conn.idle with reads := [2, 4, 2] }) := by
  decide

/-! ## C9: reserved bits -/

/-- C9: when the transport delivers the two header bytes `h0`, `h1` in its
first segment, whatever follows them, `ReadFrame` returns the
invalid-frame-header error (and no frame) if and only if one of the reserved
bits `0x40`, `0x20`, `0x10` of `h0` is set; when one is set, nothing after the
two header bytes has been read. -/
theorem reserved_bits_rejected (c : Conn) (h0 h1 : Byte) (tail : List Byte)
    (more : List ReadEvent) (h : c.inbox = ReadEvent.data (h0 :: h1 :: tail) :: more) :
    ((∃ c1, ReadFrame c = some (Except.error Err.invalidFrameHeader, c1))
      ↔ (h0 &&& 64 ≠ 0 ∨ h0 &&& 32 ≠ 0 ∨ h0 &&& 16 ≠ 0))
    ∧ ((h0 &&& 64 ≠ 0 ∨ h0 &&& 32 ≠ 0 ∨ h0 &&& 16 ≠ 0) →
        ReadFrame c = some (Except.error Err.invalidFrameHeader,
          { c with inbox := unread tail more, reads := c.reads ++ [2] })) := by
  have hrd : c.Read 2 = ([h0, h1], none,
      { c with inbox := unread tail more, reads := c.reads ++ [2] }) := by
    have := Read_unread c [h0, h1] tail more (by simp) (by simpa [unread] using h)
    simpa using this
  have hset : (h0 &&& 64 ≠ 0 ∨ h0 &&& 32 ≠ 0 ∨ h0 &&& 16 ≠ 0) →
      ReadFrame c = some (Except.error Err.invalidFrameHeader,
        { c with inbox := unread tail more, reads := c.reads ++ [2] }) := by
    intro hb
    unfold ReadFrame
    rw [hrd]
    have hb2 : ((decide (h0 &&& 64 ≠ 0) || decide (h0 &&& 32 ≠ 0)) || decide (h0 &&& 16 ≠ 0))
        = true := by
      simpa [or_assoc] using hb
    simp only [List.length_cons, List.length_nil, ne_eq, not_true_eq_false, if_false,
      List.getD_cons_zero]
    simp only [ne_eq] at hb2
    rw [if_pos hb2]
  refine ⟨⟨?_, fun hb => ⟨_, hset hb⟩⟩, hset⟩
  rintro ⟨c1, hc1⟩
  by_contra hb
  have hb2 : ¬ (((decide (h0 &&& 64 ≠ 0) || decide (h0 &&& 32 ≠ 0)) || decide (h0 &&& 16 ≠ 0))
      = true) := by
    simpa [or_assoc] using hb
  unfold ReadFrame at hc1
  rw [hrd] at hc1
  simp only [List.length_cons, List.length_nil, ne_eq, not_true_eq_false, if_false,
    List.getD_cons_zero] at hc1
  simp only [ne_eq] at hb2
  rw [if_neg hb2] at hc1
  rcases hl : readLength { c with inbox := unread tail more, reads := c.reads ++ [2] }
      ([h0, h1].getD 1 0 &&& 127) with ⟨rl, c2⟩
  rw [hl] at hc1
  cases rl with
  | error e =>
    simp only [Option.some.injEq, Prod.mk.injEq, Except.error.injEq] at hc1
    exact readLength_err _ _ e c2 hl hc1.1
  | ok len =>
    simp only [] at hc1
    rcases hm : readMask c2 (decide (¬ ([h0, h1].getD 1 0 &&& 128 = 0))) with ⟨rm, c3⟩
    rw [hm] at hc1
    cases rm with
    | error e =>
      simp only [Option.some.injEq, Prod.mk.injEq, Except.error.injEq] at hc1
      exact readMask_err _ _ e c3 hm hc1.1
    | ok mask =>
      simp only [] at hc1
      by_cases hpanic : 2 ^ 63 ≤ len
      · rw [if_pos hpanic] at hc1
        simp at hc1
      · rw [if_neg hpanic] at hc1
        rcases hp : readPayload (decide (¬ ([h0, h1].getD 1 0 &&& 128 = 0))) mask len
            (c3.inbox.length + 1) c3 [] with _ | ⟨rp, c4⟩
        · rw [hp] at hc1; simp at hc1
        · rw [hp] at hc1
          cases rp with
          | error e =>
            simp only [Option.some.injEq, Prod.mk.injEq, Except.error.injEq] at hc1
            exact readPayload_err _ _ _ _ _ _ e c4 hp hc1.1
          | ok payload => simp at hc1

/-- C9 (witness): the header `C2 01`, with the reserved bit `0x40` set,
followed by one more byte. -/
theorem reserved_bits_rejected_witness :
    (Conn.ofBytes [194, 1, 7]).inbox = ReadEvent.data (194 :: 1 :: [7]) :: [] ∧
    (((∃ c1, ReadFrame (Conn.ofBytes [194, 1, 7])
          = some (Except.error Err.invalidFrameHeader, c1))
        ↔ (194 &&& 64 ≠ 0 ∨ 194 &&& 32 ≠ 0 ∨ 194 &&& 16 ≠ 0))
      ∧ ((194 &&& 64 ≠ 0 ∨ 194 &&& 32 ≠ 0 ∨ 194 &&& 16 ≠ 0) →
          ReadFrame (Conn.ofBytes [194, 1, 7])
            = some (Except.error Err.invalidFrameHeader,
                { Conn.ofBytes [194, 1, 7] with
                  inbox := unread [7] [], reads := (Conn.ofBytes [194, 1, 7]).reads ++ [2] }))) :=
  ⟨rfl, reserved_bits_rejected (Conn.ofBytes [194, 1, 7]) 194 1 [7] [] rfl⟩

/-! ## C10: short and failed writes -/

theorem Write_ok (c : Conn) (q : List Byte) (n : Nat) (c1 : Conn)
    (h : c.Write q = (n, none, c1)) :
    n ≤ q.length ∧ c1.sent = c.sent ++ q.take n ∧
    ((c.wscript = [] ∧ c1.wscript = [] ∧ n = q.length)
      ∨ ∃ k, c.wscript = WriteEvent.accept k :: c1.wscript ∧ n = min k q.length) := by
  unfold Conn.Write at h
  cases hw : c.wscript with
  | nil =>
    rw [hw] at h
    simp only [Prod.mk.injEq, true_and] at h
    obtain ⟨h1, h2⟩ := h
    subst h2
    subst h1
    simp [hw]
  | cons ev rest =>
    rw [hw] at h
    cases ev with
    | fail k code => simp at h
    | accept k =>
      simp only [Prod.mk.injEq, true_and] at h
      obtain ⟨h1, h2⟩ := h
      subst h2
      subst h1
      simp

theorem Write_dropped (c : Conn) (q : List Byte) :
    ∃ (x : List Byte) (pre : List WriteEvent),
      (c.Write q).2.2.sent = c.sent ++ x ∧ c.wscript = pre ++ (c.Write q).2.2.wscript
      ∧ pre.length ≤ 1 := by
  unfold Conn.Write
  cases hw : c.wscript with
  | nil => exact ⟨q, [], rfl, by simp [hw], by simp⟩
  | cons ev rest =>
    cases ev with
    | fail k code => exact ⟨q.take (min k q.length), [WriteEvent.fail k code], rfl, by simp, by simp⟩
    | accept k => exact ⟨q.take (min k q.length), [WriteEvent.accept k], rfl, by simp, by simp⟩

theorem writePayload_ok (p : List Byte) (fuel : Nat) (c : Conn) (l : Nat) (c1 : Conn)
    (h : writePayload p fuel c l = some (none, c1)) (hl : l ≤ p.length) :
    c1.sent = c.sent ++ p.drop l ∧
    ∃ pl : List WriteEvent, c.wscript = pl ++ c1.wscript ∧
      ∀ ev ∈ pl, ∃ n, ev = WriteEvent.accept n := by
  induction fuel generalizing c l with
  | zero =>
    rw [writePayload.eq_def] at h
    by_cases hlt : l < p.length
    · simp [hlt] at h
    · simp only [hlt, if_false, Option.some.injEq, Prod.mk.injEq, true_and] at h
      subst h
      have : p.length ≤ l := by omega
      exact ⟨by simp [List.drop_eq_nil_of_le this], [], by simp, by simp⟩
  | succ k ih =>
    rw [writePayload.eq_def] at h
    by_cases hlt : l < p.length
    · simp only [hlt, if_true] at h
      rcases hwr : c.Write (p.drop l) with ⟨n, eo, c2⟩
      rw [hwr] at h
      cases eo with
      | some e => simp at h
      | none =>
        simp only [] at h
        obtain ⟨hn, hs, hscr⟩ := Write_ok c (p.drop l) n c2 hwr
        have hn2 : l + n ≤ p.length := by
          simp only [List.length_drop] at hn
          omega
        obtain ⟨hs2, pl, hpl, hall⟩ := ih c2 (l + n) h hn2
        refine ⟨?_, ?_⟩
        · rw [hs2, hs, List.append_assoc]
          congr 1
          have h3 := List.take_append_drop n (p.drop l)
          rw [List.drop_drop] at h3
          exact h3
        · rcases hscr with ⟨h1, h2, _⟩ | ⟨k2, h1, _⟩
          · refine ⟨[], ?_, by simp⟩
            rw [h2] at hpl
            have h4 : c1.wscript = [] := by
              have := congrArg List.length hpl
              simp at this
              exact List.eq_nil_of_length_eq_zero (by omega)
            simp [h1, h4]
          · refine ⟨WriteEvent.accept k2 :: pl, ?_, ?_⟩
            · rw [h1, hpl]; simp
            · intro ev hev
              rcases List.mem_cons.mp hev with h5 | h5
              · exact ⟨k2, h5⟩
              · exact hall ev h5
    · simp only [hlt, if_false, Option.some.injEq, Prod.mk.injEq, true_and] at h
      subst h
      have : p.length ≤ l := by omega
      exact ⟨by simp [List.drop_eq_nil_of_le this], [], by simp, by simp⟩

/-- C10 (counterexample): the transport accepts the two header bytes, then
only one byte of the two-byte payload `[1, 2]` (a short write on the payload
segment), then the rest.  `WriteTo` retries the remainder and reports
success. -/
theorem short_payload_write_counterexample :
    Frame.WriteTo
        { Fin := true, Opcode := FrameType_Binary, Masked := false, Mask := zeroMask,
          Len := 2, Payload := [1, 2] }
        { Conn.idle with wscript := [WriteEvent.accept 2, WriteEvent.accept 1] }
      = some (none, { Conn.idle with sent := [130, 2, 1, 2] }) := by
  decide

/-- C10 (amended): when `WriteTo` reports success, the header write was not
answered with an error and accepted both header bytes; no write of the payload
loop was answered with an error (every outcome the loop consumed is an
acceptance, possibly a short one, which the loop follows with a write of the
remaining bytes); and the transport has accepted the two header bytes and,
after whatever it accepted of the length extension and of the key, every byte
of the payload in order.  Nothing is asserted about the writes of the length
extension and of the key. -/
theorem WriteTo_success_means_flushed (f : Frame) (c c1 : Conn)
    (h : f.WriteTo c = some (none, c1)) :
    (c.wscript = [] ∨ ∃ n rest, c.wscript = WriteEvent.accept n :: rest ∧ 2 ≤ n) ∧
    (∃ mid : List Byte, c1.sent = c.sent ++ frameHead f ++ mid ++ f.Payload) ∧
    (∃ pre pl : List WriteEvent, c.wscript = pre ++ pl ++ c1.wscript ∧
      pre.length ≤ 1 + (if f.Payload.length < 126 then 0 else 1) + (if f.Masked then 1 else 0) ∧
      ∀ ev ∈ pl, ∃ n, ev = WriteEvent.accept n) := by
  unfold Frame.WriteTo at h
  rcases hwr : c.Write (frameHead f) with ⟨n, eo, d1⟩
  rw [hwr] at h
  cases eo with
  | some e => simp at h
  | none =>
    simp only [] at h
    by_cases hn : n = 2
    · subst hn
      simp only [ne_eq, not_true_eq_false, if_false] at h
      obtain ⟨_, hs1, hscr1⟩ := Write_ok c (frameHead f) 2 d1 hwr
      have hs1b : d1.sent = c.sent ++ frameHead f := by
        rw [hs1]; rfl
      have hlen : (frameHead f).length = 2 := rfl
      -- the length extension
      obtain ⟨x, pre2, hs2, hscr2, hp2⟩ :
          ∃ (x : List Byte) (pre2 : List WriteEvent),
            (match frameLbuf f with
              | some lbuf => (d1.Write lbuf).2.2
              | none => d1).sent = d1.sent ++ x ∧
            d1.wscript = pre2 ++ (match frameLbuf f with
              | some lbuf => (d1.Write lbuf).2.2
              | none => d1).wscript ∧
            pre2.length ≤ (if f.Payload.length < 126 then 0 else 1) := by
        unfold frameLbuf
        by_cases h126 : f.Payload.length < 126
        · simp only [h126, if_true]
          exact ⟨[], [], by simp, by simp, by simp⟩
        · by_cases h65 : f.Payload.length < 65536
          · simp only [h126, h65, if_true, if_false]
            exact Write_dropped d1 _
          · simp only [h126, h65, if_false]
            exact Write_dropped d1 _
      generalize (match frameLbuf f with
              | some lbuf => (d1.Write lbuf).2.2
              | none => d1) = d2 at h hs2 hscr2
      -- the key
      obtain ⟨y, pre3, hs3, hscr3, hp3⟩ :
          ∃ (y : List Byte) (pre3 : List WriteEvent),
            (if f.Masked then (d2.Write f.Mask).2.2 else d2).sent = d2.sent ++ y ∧
            d2.wscript = pre3 ++ (if f.Masked then (d2.Write f.Mask).2.2 else d2).wscript ∧
            pre3.length ≤ (if f.Masked then 1 else 0) := by
        by_cases hm : f.Masked = true
        · simp only [hm, if_true]
          exact Write_dropped d2 _
        · simp only [hm, if_false]
          exact ⟨[], [], by simp, by simp, by simp⟩
      generalize (if f.Masked then (d2.Write f.Mask).2.2 else d2) = d3 at h hs3 hscr3
      obtain ⟨hs4, pl, hpl, hall⟩ := writePayload_ok f.Payload _ d3 0 c1 h (Nat.zero_le _)
      refine ⟨?_, ⟨x ++ y, ?_⟩, ?_⟩
      · rcases hscr1 with ⟨h1, _, _⟩ | ⟨k, h1, h2⟩
        · exact Or.inl h1
        · refine Or.inr ⟨k, d1.wscript, h1, ?_⟩
          rw [hlen] at h2
          omega
      · rw [hs4, hs3, hs2, hs1b]
        simp [List.append_assoc]
      · rcases hscr1 with ⟨h1, h1b, _⟩ | ⟨k, h1, _⟩
        · refine ⟨[], [], ?_, by simp, by simp⟩
          rw [h1b] at hscr2
          have e2 : d2.wscript = [] := by
            have := congrArg List.length hscr2
            simp at this
            exact List.eq_nil_of_length_eq_zero (by omega)
          rw [e2] at hscr3
          have e3 : d3.wscript = [] := by
            have := congrArg List.length hscr3
            simp at this
            exact List.eq_nil_of_length_eq_zero (by omega)
          rw [e3] at hpl
          have e4 : c1.wscript = [] := by
            have := congrArg List.length hpl
            simp at this
            exact List.eq_nil_of_length_eq_zero (by omega)
          simp [h1, e4]
        · refine ⟨WriteEvent.accept k :: (pre2 ++ pre3), pl, ?_, ?_, hall⟩
          · rw [h1, hscr2, hscr3, hpl]; simp [List.append_assoc]
          · simp only [List.length_cons, List.length_append]
            omega
    · simp [hn] at h

/-- C10 (witness): the run in which a short write on the payload is retried;
the header write accepted two bytes and both payload outcomes are
acceptances. -/
theorem WriteTo_success_means_flushed_witness :
    Frame.WriteTo
        { Fin := true, Opcode := FrameType_Binary, Masked := false, Mask := zeroMask,
          Len := 2, Payload := [1, 2] }
        { Conn.idle with wscript := [WriteEvent.accept 2, WriteEvent.accept 1] }
      = some (none, { Conn.idle with sent := [130, 2, 1, 2] })
    ∧ (([WriteEvent.accept 2, WriteEvent.accept 1] = []
        ∨ ∃ n rest, [WriteEvent.accept 2, WriteEvent.accept 1] = WriteEvent.accept n :: rest
            ∧ 2 ≤ n) ∧
      (∃ mid : List Byte, [130, 2, 1, 2]
          = [] ++ frameHead { Fin := true, Opcode := FrameType_Binary, Masked := false,
                              Mask := zeroMask, Len := 2, Payload := [1, 2] } ++ mid ++ [1, 2]) ∧
      (∃ pre pl : List WriteEvent,
        [WriteEvent.accept 2, WriteEvent.accept 1] = pre ++ pl ++ [] ∧
        pre.length ≤ 1 + (if [1, 2].length < 126 then 0 else 1) + (if false then 1 else 0) ∧
        ∀ ev ∈ pl, ∃ n, ev = WriteEvent.accept n)) :=
  ⟨by decide,
    WriteTo_success_means_flushed
      { Fin := true, Opcode := FrameType_Binary, Masked := false, Mask := zeroMask,
        Len := 2, Payload := [1, 2] }
      { Conn.idle with wscript := [WriteEvent.accept 2, WriteEvent.accept 1] }
      { Conn.idle with sent := [130, 2, 1, 2] } (by decide)⟩

/-! ## C11: the masking transform -/

theorem xorMask_getD (mask : List Byte) (m : Nat) (xs : List Byte) (i : Nat) (h : i < xs.length) :
    (xorMask mask m xs).getD i 0 = xs.getD i 0 ^^^ mask.getD ((m + i) % 4) 0 := by
  induction xs generalizing m i with
  | nil => simp at h
  | cons x xs ih =>
    cases i with
    | zero => simp [xorMask]
    | succ j =>
      simp only [xorMask, List.getD_cons_succ]
      rw [ih (m + 1) j (by simpa using h)]
      congr 3
      omega

theorem xorMask_twice (mask : List Byte) (m : Nat) (xs : List Byte) :
    xorMask mask m (xorMask mask m xs) = xs := by
  induction xs generalizing m with
  | nil => rfl
  | cons x xs ih => simp [xorMask, ih, Nat.xor_cancel_right]

theorem xorMask_eq_sequential (mask xs : List Byte) :
    xorMask mask 0 xs = maskSequential mask xs := by
  apply List.ext_getElem
  · simp [maskSequential, xorMask_length]
  · intro i h1 h2
    have hi : i < xs.length := by simpa [xorMask_length] using h1
    have h3 := xorMask_getD mask 0 xs i hi
    rw [List.getD_eq_getElem _ _ h1] at h3
    rw [h3]
    simp [maskSequential]

/-- C11: the masking transform of the codec, which replaces the byte at
payload position `i` by its XOR with `key[i mod 4]`, is its own inverse: for
every key and every payload, the empty one included, applying it twice with
the same key gives the payload back.  This holds for the loop of `ReadFrame`
started at any payload position `m`, and for the single sequential pass of the
specification, with which the loop started at position 0 agrees. -/
theorem xorMask_involutive (mask : List Byte) (m : Nat) (xs : List Byte) :
    xorMask mask m (xorMask mask m xs) = xs
    ∧ xorMask mask 0 xs = maskSequential mask xs
    ∧ maskSequential mask (maskSequential mask xs) = xs
    ∧ maskSequential mask [] = [] := by
  refine ⟨xorMask_twice mask m xs, xorMask_eq_sequential mask xs, ?_, rfl⟩
  rw [← xorMask_eq_sequential, ← xorMask_eq_sequential, xorMask_twice]

/-! ## C12, C13, C14: the handshake -/

/-- C12: a request that fails one of the validations of `ServeHTTP` (method
other than GET, empty request target, `Connection` other than `Upgrade`,
`Upgrade` other than `websocket`, `Sec-WebSocket-Version` other than `13`) is
answered with an HTTP error status, 405, 406 or 426, and 405 when the method
is wrong; the connection is not hijacked, nothing (so no 101 response) is
written to it, and no connection is sent to the channel `Accept` receives
from. -/
theorem handshake_rejected (resp : Responder) (req : Request)
    (h : req.Method ≠ "GET" ∨ req.RequestURI = "" ∨ req.Get "Connection" ≠ "Upgrade"
      ∨ req.Get "Upgrade" ≠ "websocket" ∨ req.Get "Sec-WebSocket-Version" ≠ "13") :
    ∃ code : Nat,
      (Listener.ServeHTTP resp req).status = some code
      ∧ (code = 405 ∨ code = 406 ∨ code = 426)
      ∧ (req.Method ≠ "GET" → code = 405)
      ∧ (Listener.ServeHTTP resp req).hijacked = false
      ∧ (Listener.ServeHTTP resp req).written = ""
      ∧ (Listener.ServeHTTP resp req).handed = false := by
  unfold Listener.ServeHTTP
  by_cases h1 : req.Method ≠ "GET"
  · rw [if_pos h1]
    exact ⟨405, rfl, Or.inl rfl, fun _ => rfl, rfl, rfl, rfl⟩
  · rw [if_neg h1]
    by_cases h2 : req.RequestURI = ""
    · rw [if_pos h2]
      exact ⟨406, rfl, Or.inr (Or.inl rfl), fun hm => absurd hm h1, rfl, rfl, rfl⟩
    · rw [if_neg h2]
      by_cases h3 : req.Get "Connection" ≠ "Upgrade"
      · rw [if_pos h3]
        exact ⟨426, rfl, Or.inr (Or.inr rfl), fun hm => absurd hm h1, rfl, rfl, rfl⟩
      · rw [if_neg h3]
        by_cases h4 : req.Get "Upgrade" ≠ "websocket"
        · rw [if_pos h4]
          exact ⟨426, rfl, Or.inr (Or.inr rfl), fun hm => absurd hm h1, rfl, rfl, rfl⟩
        · rw [if_neg h4]
          by_cases h5 : req.Get "Sec-WebSocket-Version" ≠ "13"
          · rw [if_pos h5]
            exact ⟨426, rfl, Or.inr (Or.inr rfl), fun hm => absurd hm h1, rfl, rfl, rfl⟩
          · rcases h with h | h | h | h | h
            · exact absurd h h1
            · exact absurd h h2
            · exact absurd h h3
            · exact absurd h h4
            · exact absurd h h5

/-- C12 (witness): a GET request with `Connection: Upgrade`,
`Upgrade: websocket` and a key, but without `Sec-WebSocket-Version`. -/
theorem handshake_rejected_witness :
    ∃ code : Nat,
      (Listener.ServeHTTP { hijacker := true, hijackFails := false, buffered := 0 }
        { Method := "GET", RequestURI := "/ws", Proto := "HTTP/1.1",
          Header := [("Connection", "Upgrade"), ("Upgrade", "websocket"),
                     ("Sec-Websocket-Key", "dGhlIHNhbXBsZSBub25jZQ==")] }).status = some code
      ∧ (code = 405 ∨ code = 406 ∨ code = 426)
      ∧ ("GET" ≠ "GET" → code = 405)
      ∧ (Listener.ServeHTTP { hijacker := true, hijackFails := false, buffered := 0 }
        { Method := "GET", RequestURI := "/ws", Proto := "HTTP/1.1",
          Header := [("Connection", "Upgrade"), ("Upgrade", "websocket"),
                     ("Sec-Websocket-Key", "dGhlIHNhbXBsZSBub25jZQ==")] }).hijacked = false
      ∧ (Listener.ServeHTTP { hijacker := true, hijackFails := false, buffered := 0 }
        { Method := "GET", RequestURI := "/ws", Proto := "HTTP/1.1",
          Header := [("Connection", "Upgrade"), ("Upgrade", "websocket"),
                     ("Sec-Websocket-Key", "dGhlIHNhbXBsZSBub25jZQ==")] }).written = ""
      ∧ (Listener.ServeHTTP { hijacker := true, hijackFails := false, buffered := 0 }
        { Method := "GET", RequestURI := "/ws", Proto := "HTTP/1.1",
          Header := [("Connection", "Upgrade"), ("Upgrade", "websocket"),
                     ("Sec-Websocket-Key", "dGhlIHNhbXBsZSBub25jZQ==")] }).handed = false :=
  handshake_rejected { hijacker := true, hijackFails := false, buffered := 0 }
    { Method := "GET", RequestURI := "/ws", Proto := "HTTP/1.1",
      Header := [("Connection", "Upgrade"), ("Upgrade", "websocket"),
                 ("Sec-Websocket-Key", "dGhlIHNhbXBsZSBub25jZQ==")] }
    (by decide)

set_option maxRecDepth 1000000

/-- C13: a GET request with `Connection: Upgrade`, `Upgrade: websocket` and
`Sec-WebSocket-Version: 13` but without a `Sec-WebSocket-Key` header is not
rejected: no status is written, the connection is hijacked, the 101 response
is written to it, with the accept token of the empty key, and the connection
is sent to the channel `Accept` receives from. -/
theorem handshake_without_key_upgraded :
    Listener.ServeHTTP { hijacker := true, hijackFails := false, buffered := 0 }
      { Method := "GET", RequestURI := "/ws", Proto := "HTTP/1.1",
        Header := [("Connection", "Upgrade"), ("Upgrade", "websocket"),
                   ("Sec-Websocket-Version", "13")] }
    = { status := none, hijacked := true,
        written := "HTTP/1.1 101 Switching Protocols\r\nUpgrade: websocket\r\n"
          ++ "Connection: Upgrade\r\nSec-WebSocket-Accept: Kfh9QIsMVZcl6xEPYxPHzW8SZ8w=\r\n\r\n",
        closed := false, handed := true } := by
  decide

/-- C14: when a request passes the validations of `ServeHTTP` and the
connection is hijacked with no client bytes buffered, the response written to
the connection is the status line `101 Switching Protocols`, the `Upgrade` and
`Connection` lines, and the line `Sec-WebSocket-Accept:` with the standard
padded base64 encoding of the SHA-1 digest of the value `k` of the key header
followed by `258EAFA5-E914-47DA-95CA-C5AB0DC85B11`; and for the key
`dGhlIHNhbXBsZSBub25jZQ==` that token is `s3pPLMBiTxaQ9kYGzzhZRbK+xOo=`. -/
theorem accept_token_in_response (resp : Responder) (req : Request)
    (hm : req.Method = "GET") (hu : req.RequestURI ≠ "")
    (hc : req.Get "Connection" = "Upgrade") (hg : req.Get "Upgrade" = "websocket")
    (hv : req.Get "Sec-WebSocket-Version" = "13")
    (hh : resp.hijacker = true) (hf : resp.hijackFails = false) (hb : resp.buffered = 0) :
    (Listener.ServeHTTP resp req).written
      = req.Proto ++ " 101 Switching Protocols\r\n" ++ "Upgrade: websocket\r\n"
        ++ "Connection: Upgrade\r\n"
        ++ ("Sec-WebSocket-Accept: "
            ++ EncodeToString (sha1Sum (bytesOf
                (req.Get "Sec-WebSocket-Key" ++ "258EAFA5-E914-47DA-95CA-C5AB0DC85B11")))
            ++ "\r\n\r\n")
    ∧ (Listener.ServeHTTP resp req).handed = true
    ∧ EncodeToString (sha1Sum (bytesOf
        ("dGhlIHNhbXBsZSBub25jZQ==" ++ "258EAFA5-E914-47DA-95CA-C5AB0DC85B11")))
      = "s3pPLMBiTxaQ9kYGzzhZRbK+xOo=" := by
  have hk : req.Get "Sec-Websocket-Key" = req.Get "Sec-WebSocket-Key" := by
    have : canonicalKey "Sec-Websocket-Key" = canonicalKey "Sec-WebSocket-Key" := by decide
    simp only [Request.Get, this]
  refine ⟨?_, ?_, by decide⟩
  · simp [Listener.ServeHTTP, hm, hu, hc, hg, hv, hh, hf, hb, acceptToken, wsGUID, hk]
  · simp [Listener.ServeHTTP, hm, hu, hc, hg, hv, hh, hf, hb]

/-- C14 (witness): the handshake request with the key
`dGhlIHNhbXBsZSBub25jZQ==`. -/
theorem accept_token_in_response_witness :
    (Listener.ServeHTTP { hijacker := true, hijackFails := false, buffered := 0 }
      { Method := "GET", RequestURI := "/ws", Proto := "HTTP/1.1",
        Header := [("Connection", "Upgrade"), ("Upgrade", "websocket"),
                   ("Sec-Websocket-Version", "13"),
                   ("Sec-Websocket-Key", "dGhlIHNhbXBsZSBub25jZQ==")] }).written
      = "HTTP/1.1" ++ " 101 Switching Protocols\r\n" ++ "Upgrade: websocket\r\n"
        ++ "Connection: Upgrade\r\n"
        ++ ("Sec-WebSocket-Accept: "
            ++ EncodeToString (sha1Sum (bytesOf
                ("dGhlIHNhbXBsZSBub25jZQ==" ++ "258EAFA5-E914-47DA-95CA-C5AB0DC85B11")))
            ++ "\r\n\r\n")
    ∧ (Listener.ServeHTTP { hijacker := true, hijackFails := false, buffered := 0 }
      { Method := "GET", RequestURI := "/ws", Proto := "HTTP/1.1",
        Header := [("Connection", "Upgrade"), ("Upgrade", "websocket"),
                   ("Sec-Websocket-Version", "13"),
                   ("Sec-Websocket-Key", "dGhlIHNhbXBsZSBub25jZQ==")] }).handed = true
    ∧ EncodeToString (sha1Sum (bytesOf
        ("dGhlIHNhbXBsZSBub25jZQ==" ++ "258EAFA5-E914-47DA-95CA-C5AB0DC85B11")))
      = "s3pPLMBiTxaQ9kYGzzhZRbK+xOo=" :=
  accept_token_in_response { hijacker := true, hijackFails := false, buffered := 0 }
    { Method := "GET", RequestURI := "/ws", Proto := "HTTP/1.1",
      Header := [("Connection", "Upgrade"), ("Upgrade", "websocket"),
                 ("Sec-Websocket-Version", "13"),
                 ("Sec-Websocket-Key", "dGhlIHNhbXBsZSBub25jZQ==")] }
    rfl (by decide) (by decide) (by decide) (by decide) rfl rfl rfl

/-! ## C15: the listener after `Close` -/

theorem closed_listener_stays_closed (l : Listener) (hc : l.closed = true)
    (ops : List ListenerOp) :
    (l.run ops).2 = l ∧ ∀ o ∈ (l.run ops).1, o.conn = none ∧ o.err ≠ none := by
  induction ops with
  | nil => simp [Listener.run]
  | cons op ops ih =>
    have hs : (l.step op).2 = l ∧ (l.step op).1.conn = none ∧ (l.step op).1.err ≠ none := by
      cases op <;> simp [Listener.step, Listener.Accept, Listener.Close, hc]
    simp only [Listener.run]
    rw [hs.1]
    refine ⟨ih.1, ?_⟩
    intro o ho
    rcases List.mem_cons.mp ho with h | h
    · rw [h]; exact hs.2
    · exact ih.2 o h

/-- C15: `Close` on an open listener returns no error and closes the channel.
After it, whatever sequence of `Accept` and `Close` calls follows, the
listener is closed at the end, every one of these calls returns an error, and
none returns a connection; in particular `Accept` returns the error
`socket closed` and a further `Close` the error `channel already closed`. -/
theorem listener_close_is_final (l : Listener) (ho : l.closed = false)
    (ops : List ListenerOp) :
    (l.Close).1 = none ∧ (l.Close).2.closed = true
    ∧ (((l.Close).2).run ops).2.closed = true
    ∧ (∀ o ∈ (((l.Close).2).run ops).1, o.conn = none ∧ o.err ≠ none)
    ∧ (((l.Close).2).Accept).1 = Accepted.err "socket closed"
    ∧ (((l.Close).2).Close).1 = some "channel already closed" := by
  have h1 : (l.Close).2.closed = true := by simp [Listener.Close, ho]
  obtain ⟨h2, h3⟩ := closed_listener_stays_closed (l.Close).2 h1 ops
  refine ⟨by simp [Listener.Close, ho], h1, by rw [h2]; exact h1, h3, ?_, ?_⟩
  · simp [Listener.Accept, h1]
  · simp [Listener.Close, ho]

/-- C15 (witness): an open listener with no handshake pending is closed, and
then `Accept`, `Close`, `Accept` are called. -/
theorem listener_close_is_final_witness :
    (Listener.Close { closed := false, pending := [] }).1 = none
    ∧ (Listener.Close { closed := false, pending := [] }).2.closed = true
    ∧ (((Listener.Close { closed := false, pending := [] }).2).run
        [ListenerOp.accept, ListenerOp.close, ListenerOp.accept]).2.closed = true
    ∧ (∀ o ∈ (((Listener.Close { closed := false, pending := [] }).2).run
        [ListenerOp.accept, ListenerOp.close, ListenerOp.accept]).1, o.conn = none ∧ o.err ≠ none)
    ∧ (((Listener.Close { closed := false, pending := [] }).2).Accept).1
        = Accepted.err "socket closed"
    ∧ (((Listener.Close { closed := false, pending := [] }).2).Close).1
        = some "channel already closed" :=
  listener_close_is_final { closed := false, pending := [] } rfl
    [ListenerOp.accept, ListenerOp.close, ListenerOp.accept]

/-! ## What the reader and the writer leave untouched -/

theorem Read_frame (c : Conn) (k : Nat) (bs : List Byte) (eo : Option Err) (c1 : Conn)
    (h : c.Read k = (bs, eo, c1)) :
    c1.sent = c.sent ∧ c1.wscript = c.wscript ∧ c1.closed = c.closed
    ∧ c1.pending ≤ c.pending ∧ (eo = none → 0 < k → c1.pending < c.pending) := by
  unfold Conn.Read at h
  cases hi : c.inbox with
  | nil =>
    rw [hi] at h
    simp only [Prod.mk.injEq] at h
    obtain ⟨_, h2, h3⟩ := h
    subst h3
    subst h2
    simp [Conn.pending, hi]
  | cons ev rest =>
    rw [hi] at h
    cases ev with
    | fail code =>
      simp only [Prod.mk.injEq] at h
      obtain ⟨_, h2, h3⟩ := h
      subst h3
      subst h2
      simp [Conn.pending, hi]
    | data seg =>
      simp only [] at h
      by_cases hs : seg.length ≤ k
      · rw [if_pos hs] at h
        simp only [Prod.mk.injEq] at h
        obtain ⟨_, h2, h3⟩ := h
        subst h3
        subst h2
        simp only [Conn.pending, hi, List.map_cons, List.sum_cons, true_and]
        refine ⟨by omega, fun _ _ => by omega⟩
      · rw [if_neg hs] at h
        simp only [Prod.mk.injEq] at h
        obtain ⟨_, h2, h3⟩ := h
        subst h3
        subst h2
        simp only [Conn.pending, hi, List.map_cons, List.sum_cons, List.length_drop, true_and]
        refine ⟨by omega, fun _ hk => by omega⟩

theorem beUint64_lt (b : List Byte) : beUint64 b < 2 ^ 64 := by
  unfold beUint64
  exact Nat.mod_lt _ (by norm_num)

theorem readLength_frame_ok (c : Conn) (len7 : Nat) (r : Except Err Nat) (c1 : Conn)
    (h7 : len7 < 128) (h : readLength c len7 = (r, c1)) :
    c1.sent = c.sent ∧ c1.wscript = c.wscript ∧ c1.closed = c.closed
    ∧ c1.pending ≤ c.pending ∧ (∀ len, r = Except.ok len → len < 2 ^ 64) := by
  unfold readLength at h
  by_cases h126 : len7 = 126
  · rw [if_pos h126] at h
    rcases hr : c.Read 2 with ⟨bs, eo, c2⟩
    obtain ⟨a1, a2, a3, a4, _⟩ := Read_frame c 2 bs eo c2 hr
    rw [hr] at h
    cases eo with
    | some e =>
      simp only [Prod.mk.injEq] at h
      obtain ⟨h1, h2⟩ := h
      subst h2
      subst h1
      exact ⟨a1, a2, a3, a4, by intro len hl; cases hl⟩
    | none =>
      simp only [] at h
      by_cases hb : bs.length ≠ 2
      · rw [if_pos hb] at h
        simp only [Prod.mk.injEq] at h
        obtain ⟨h1, h2⟩ := h
        subst h2
        subst h1
        exact ⟨a1, a2, a3, a4, by intro len hl; cases hl⟩
      · rw [if_neg hb] at h
        simp only [Prod.mk.injEq] at h
        obtain ⟨h1, h2⟩ := h
        subst h2
        subst h1
        refine ⟨a1, a2, a3, a4, ?_⟩
        intro len hl
        injection hl with hl
        rw [← hl]
        exact beUint64_lt _
  · rw [if_neg h126] at h
    by_cases h127 : len7 = 127
    · rw [if_pos h127] at h
      rcases hr : c.Read 8 with ⟨bs, eo, c2⟩
      obtain ⟨a1, a2, a3, a4, _⟩ := Read_frame c 8 bs eo c2 hr
      rw [hr] at h
      cases eo with
      | some e =>
        simp only [Prod.mk.injEq] at h
        obtain ⟨h1, h2⟩ := h
        subst h2
        subst h1
        exact ⟨a1, a2, a3, a4, by intro len hl; cases hl⟩
      | none =>
        simp only [] at h
        by_cases hb : bs.length ≠ 8
        · rw [if_pos hb] at h
          simp only [Prod.mk.injEq] at h
          obtain ⟨h1, h2⟩ := h
          subst h2
          subst h1
          exact ⟨a1, a2, a3, a4, by intro len hl; cases hl⟩
        · rw [if_neg hb] at h
          simp only [Prod.mk.injEq] at h
          obtain ⟨h1, h2⟩ := h
          subst h2
          subst h1
          refine ⟨a1, a2, a3, a4, ?_⟩
          intro len hl
          injection hl with hl
          rw [← hl]
          exact beUint64_lt _
    · rw [if_neg h127] at h
      simp only [Prod.mk.injEq] at h
      obtain ⟨h1, h2⟩ := h
      subst h2
      subst h1
      refine ⟨rfl, rfl, rfl, Nat.le_refl _, ?_⟩
      intro len hl
      injection hl with hl
      rw [← hl]
      omega

theorem readMask_frame_ok (c : Conn) (m : Bool) (r : Except Err (List Byte)) (c1 : Conn)
    (h : readMask c m = (r, c1)) :
    c1.sent = c.sent ∧ c1.wscript = c.wscript ∧ c1.closed = c.closed
    ∧ c1.pending ≤ c.pending ∧ (∀ key, r = Except.ok key → key.length = 4) := by
  unfold readMask at h
  cases m with
  | false =>
    simp only [Bool.false_eq_true, if_false, Prod.mk.injEq] at h
    obtain ⟨h1, h2⟩ := h
    subst h2
    subst h1
    refine ⟨rfl, rfl, rfl, Nat.le_refl _, ?_⟩
    intro key hk
    injection hk with hk
    rw [← hk]
    rfl
  | true =>
    simp only [if_true] at h
    rcases hr : c.Read 4 with ⟨bs, eo, c2⟩
    obtain ⟨a1, a2, a3, a4, _⟩ := Read_frame c 4 bs eo c2 hr
    rw [hr] at h
    cases eo with
    | some e =>
      simp only [Prod.mk.injEq] at h
      obtain ⟨h1, h2⟩ := h
      subst h2
      subst h1
      exact ⟨a1, a2, a3, a4, by intro key hk; cases hk⟩
    | none =>
      simp only [] at h
      by_cases hb : bs.length ≠ 4
      · rw [if_pos hb] at h
        simp only [Prod.mk.injEq] at h
        obtain ⟨h1, h2⟩ := h
        subst h2
        subst h1
        exact ⟨a1, a2, a3, a4, by intro key hk; cases hk⟩
      · rw [if_neg hb] at h
        simp only [Prod.mk.injEq] at h
        obtain ⟨h1, h2⟩ := h
        subst h2
        subst h1
        refine ⟨a1, a2, a3, a4, ?_⟩
        intro key hk
        injection hk with hk
        rw [← hk]
        exact not_not.mp hb

theorem readPayload_frame_ok (masked : Bool) (mask : List Byte) (total fuel : Nat) (c : Conn)
    (got : List Byte) (r : Except Err (List Byte)) (c1 : Conn)
    (h : readPayload masked mask total fuel c got = some (r, c1)) :
    c1.sent = c.sent ∧ c1.wscript = c.wscript ∧ c1.closed = c.closed
    ∧ c1.pending ≤ c.pending ∧ (∀ p, r = Except.ok p → p.length = total) := by
  induction fuel generalizing c got with
  | zero =>
    rw [readPayload.eq_def] at h
    by_cases hg : got.length = total
    · simp only [hg, if_true, Option.some.injEq, Prod.mk.injEq] at h
      obtain ⟨h1, h2⟩ := h
      subst h2
      subst h1
      refine ⟨rfl, rfl, rfl, Nat.le_refl _, ?_⟩
      intro p hp
      injection hp with hp
      rw [← hp]
      exact hg
    · simp [hg] at h
  | succ n ih =>
    rw [readPayload.eq_def] at h
    by_cases hg : got.length = total
    · simp only [hg, if_true, Option.some.injEq, Prod.mk.injEq] at h
      obtain ⟨h1, h2⟩ := h
      subst h2
      subst h1
      refine ⟨rfl, rfl, rfl, Nat.le_refl _, ?_⟩
      intro p hp
      injection hp with hp
      rw [← hp]
      exact hg
    · simp only [hg, if_false] at h
      rcases hr : c.Read (total - got.length) with ⟨bs, eo, c2⟩
      obtain ⟨a1, a2, a3, a4, _⟩ := Read_frame c _ bs eo c2 hr
      rw [hr] at h
      cases eo with
      | some e =>
        simp only [Option.some.injEq, Prod.mk.injEq] at h
        obtain ⟨h1, h2⟩ := h
        subst h2
        subst h1
        exact ⟨a1, a2, a3, a4, by intro p hp; cases hp⟩
      | none =>
        simp only [] at h
        obtain ⟨b1, b2, b3, b4, b5⟩ := ih c2 _ h
        exact ⟨b1.trans a1, b2.trans a2, b3.trans a3, Nat.le_trans b4 a4, b5⟩

theorem ReadFrame_frame (c : Conn) (r : Except Err Frame) (c1 : Conn)
    (h : ReadFrame c = some (r, c1)) :
    c1.sent = c.sent ∧ c1.wscript = c.wscript ∧ c1.closed = c.closed
    ∧ c1.pending ≤ c.pending
    ∧ (∀ g, r = Except.ok g →
        g.Opcode < 16 ∧ g.Mask.length = 4 ∧ g.Payload.length = g.Len ∧ g.Len < 2 ^ 63
        ∧ c1.pending < c.pending) := by
  unfold ReadFrame at h
  rcases hr : c.Read 2 with ⟨head, eo, d1⟩
  obtain ⟨a1, a2, a3, a4, a5⟩ := Read_frame c 2 head eo d1 hr
  rw [hr] at h
  cases eo with
  | some e =>
    simp only [Option.some.injEq, Prod.mk.injEq] at h
    obtain ⟨h1, h2⟩ := h
    subst h2
    subst h1
    exact ⟨a1, a2, a3, a4, by intro g hg; cases hg⟩
  | none =>
    have a6 := a5 rfl (by decide)
    simp only [] at h
    by_cases hl : head.length ≠ 2
    · rw [if_pos hl] at h
      simp only [Option.some.injEq, Prod.mk.injEq] at h
      obtain ⟨h1, h2⟩ := h
      subst h2
      subst h1
      exact ⟨a1, a2, a3, a4, by intro g hg; cases hg⟩
    · rw [if_neg hl] at h
      split at h
      · simp only [Option.some.injEq, Prod.mk.injEq] at h
        obtain ⟨h1, h2⟩ := h
        subst h2
        subst h1
        exact ⟨a1, a2, a3, a4, by intro g hg; cases hg⟩
      · have h7 : head.getD 1 0 &&& 127 < 128 :=
          Nat.and_lt_two_pow _ (by decide : 127 < 2 ^ 7)
        rcases hlen : readLength d1 (head.getD 1 0 &&& 127) with ⟨rl, d2⟩
        obtain ⟨b1, b2, b3, b4, b5⟩ := readLength_frame_ok d1 _ rl d2 h7 hlen
        rw [hlen] at h
        cases rl with
        | error e =>
          simp only [Option.some.injEq, Prod.mk.injEq] at h
          obtain ⟨h1, h2⟩ := h
          subst h2
          subst h1
          exact ⟨b1.trans a1, b2.trans a2, b3.trans a3, Nat.le_trans b4 a4,
            by intro g hg; cases hg⟩
        | ok len =>
          simp only [] at h
          rcases hmk : readMask d2 (decide (head.getD 1 0 &&& 128 ≠ 0)) with ⟨rm, d3⟩
          obtain ⟨e1, e2, e3, e4, e5⟩ := readMask_frame_ok d2 _ rm d3 hmk
          rw [hmk] at h
          cases rm with
          | error e =>
            simp only [Option.some.injEq, Prod.mk.injEq] at h
            obtain ⟨h1, h2⟩ := h
            subst h2
            subst h1
            exact ⟨(e1.trans b1).trans a1, (e2.trans b2).trans a2, (e3.trans b3).trans a3,
              Nat.le_trans e4 (Nat.le_trans b4 a4), by intro g hg; cases hg⟩
          | ok mask =>
            simp only [] at h
            by_cases hpanic : 2 ^ 63 ≤ len
            · rw [if_pos hpanic] at h
              simp only [Option.some.injEq, Prod.mk.injEq] at h
              obtain ⟨h1, h2⟩ := h
              subst h2
              subst h1
              exact ⟨(e1.trans b1).trans a1, (e2.trans b2).trans a2, (e3.trans b3).trans a3,
                Nat.le_trans e4 (Nat.le_trans b4 a4), by intro g hg; cases hg⟩
            · rw [if_neg hpanic] at h
              rcases hp : readPayload (decide (head.getD 1 0 &&& 128 ≠ 0)) mask len
                  (d3.inbox.length + 1) d3 [] with _ | ⟨rp, d4⟩
              · rw [hp] at h; simp at h
              · obtain ⟨f1, f2, f3, f4, f5⟩ := readPayload_frame_ok _ _ _ _ _ _ rp d4 hp
                rw [hp] at h
                cases rp with
                | error e =>
                  simp only [Option.some.injEq, Prod.mk.injEq] at h
                  obtain ⟨h1, h2⟩ := h
                  subst h2
                  subst h1
                  exact ⟨((f1.trans e1).trans b1).trans a1, ((f2.trans e2).trans b2).trans a2,
                    ((f3.trans e3).trans b3).trans a3,
                    Nat.le_trans f4 (Nat.le_trans e4 (Nat.le_trans b4 a4)),
                    by intro g hg; cases hg⟩
                | ok payload =>
                  simp only [Option.some.injEq, Prod.mk.injEq] at h
                  obtain ⟨h1, h2⟩ := h
                  subst h2
                  subst h1
                  refine ⟨((f1.trans e1).trans b1).trans a1,
                    ((f2.trans e2).trans b2).trans a2, ((f3.trans e3).trans b3).trans a3,
                    Nat.le_trans f4 (Nat.le_trans e4 (Nat.le_trans b4 a4)), ?_⟩
                  intro g hg
                  injection hg with hg
                  subst hg
                  refine ⟨Nat.and_lt_two_pow _ (by decide : 15 < 2 ^ 4), e5 mask rfl,
                    f5 payload rfl, Nat.lt_of_not_le hpanic, ?_⟩
                  omega

theorem Write_frame (c : Conn) (q : List Byte) :
    (c.Write q).2.2.inbox = c.inbox ∧ (c.Write q).2.2.reads = c.reads
    ∧ (c.Write q).2.2.closed = c.closed := by
  unfold Conn.Write
  cases hw : c.wscript with
  | nil => exact ⟨rfl, rfl, rfl⟩
  | cons ev rest => cases ev <;> exact ⟨rfl, rfl, rfl⟩

theorem writePayload_frame (p : List Byte) (fuel : Nat) (c : Conn) (l : Nat)
    (e : Option Err) (c1 : Conn) (h : writePayload p fuel c l = some (e, c1)) :
    c1.inbox = c.inbox ∧ c1.reads = c.reads ∧ c1.closed = c.closed := by
  induction fuel generalizing c l with
  | zero =>
    rw [writePayload.eq_def] at h
    by_cases hlt : l < p.length
    · simp [hlt] at h
    · simp only [hlt, if_false, Option.some.injEq, Prod.mk.injEq] at h
      obtain ⟨_, h2⟩ := h
      subst h2
      exact ⟨rfl, rfl, rfl⟩
  | succ n ih =>
    rw [writePayload.eq_def] at h
    by_cases hlt : l < p.length
    · simp only [hlt, if_true] at h
      obtain ⟨w1, w2, w3⟩ := Write_frame c (p.drop l)
      rcases hwr : c.Write (p.drop l) with ⟨k, eo, c2⟩
      rw [hwr] at h w1 w2 w3
      simp only [] at w1 w2 w3
      cases eo with
      | some e2 =>
        simp only [Option.some.injEq, Prod.mk.injEq] at h
        obtain ⟨_, h2⟩ := h
        subst h2
        exact ⟨w1, w2, w3⟩
      | none =>
        simp only [] at h
        obtain ⟨i1, i2, i3⟩ := ih c2 _ h
        exact ⟨i1.trans w1, i2.trans w2, i3.trans w3⟩
    · simp only [hlt, if_false, Option.some.injEq, Prod.mk.injEq] at h
      obtain ⟨_, h2⟩ := h
      subst h2
      exact ⟨rfl, rfl, rfl⟩

theorem WriteTo_frame (f : Frame) (c : Conn) (e : Option Err) (c1 : Conn)
    (h : f.WriteTo c = some (e, c1)) :
    c1.inbox = c.inbox ∧ c1.reads = c.reads ∧ c1.closed = c.closed := by
  unfold Frame.WriteTo at h
  obtain ⟨w1, w2, w3⟩ := Write_frame c (frameHead f)
  rcases hwr : c.Write (frameHead f) with ⟨n, eo, d1⟩
  rw [hwr] at h w1 w2 w3
  simp only [] at w1 w2 w3
  cases eo with
  | some e2 =>
    simp only [Option.some.injEq, Prod.mk.injEq] at h
    obtain ⟨_, h2⟩ := h
    subst h2
    exact ⟨w1, w2, w3⟩
  | none =>
    simp only [] at h
    by_cases hn : n ≠ 2
    · rw [if_pos hn] at h
      simp only [Option.some.injEq, Prod.mk.injEq] at h
      obtain ⟨_, h2⟩ := h
      subst h2
      exact ⟨w1, w2, w3⟩
    · rw [if_neg hn] at h
      have x : ∀ d : Conn, (match frameLbuf f with
            | some lbuf => (d.Write lbuf).2.2
            | none => d).inbox = d.inbox ∧
          (match frameLbuf f with
            | some lbuf => (d.Write lbuf).2.2
            | none => d).reads = d.reads ∧
          (match frameLbuf f with
            | some lbuf => (d.Write lbuf).2.2
            | none => d).closed = d.closed := by
        intro d
        cases frameLbuf f with
        | none => exact ⟨rfl, rfl, rfl⟩
        | some lbuf => exact Write_frame d lbuf
      have y : ∀ d : Conn, (if f.Masked then (d.Write f.Mask).2.2 else d).inbox = d.inbox ∧
          (if f.Masked then (d.Write f.Mask).2.2 else d).reads = d.reads ∧
          (if f.Masked then (d.Write f.Mask).2.2 else d).closed = d.closed := by
        intro d
        cases f.Masked with
        | false => exact ⟨rfl, rfl, rfl⟩
        | true => exact Write_frame d f.Mask
      obtain ⟨p1, p2, p3⟩ := writePayload_frame _ _ _ _ _ _ h
      obtain ⟨y1, y2, y3⟩ := y (match frameLbuf f with
            | some lbuf => (d1.Write lbuf).2.2
            | none => d1)
      obtain ⟨x1, x2, x3⟩ := x d1
      exact ⟨((p1.trans y1).trans x1).trans w1, ((p2.trans y2).trans x2).trans w2,
        ((p3.trans y3).trans x3).trans w3⟩

theorem pending_of_inbox (c c1 : Conn) (h : c1.inbox = c.inbox) : c1.pending = c.pending := by
  simp [Conn.pending, h]

/-! ## Totality of the receive loop -/

theorem recvLoop_total (fuel : Nat) (c : Conn) (buf : List Byte) (h : c.pending < fuel) :
    ∃ r, recvLoop fuel c buf = some r := by
  induction fuel generalizing c buf with
  | zero => omega
  | succ n ih =>
    rw [recvLoop]
    obtain ⟨⟨r, c1⟩, hr⟩ := ReadFrame_total c
    obtain ⟨_, _, _, _, a5⟩ := ReadFrame_frame c r c1 hr
    rw [hr]
    cases r with
    | error e => exact ⟨_, rfl⟩
    | ok g =>
      obtain ⟨_, _, _, _, hp⟩ := a5 g rfl
      simp only []
      by_cases h1 : g.Opcode = FrameType_Ping
      · rw [if_pos h1]
        obtain ⟨⟨e, c2⟩, hw⟩ := WriteTo_total { g with Opcode := FrameType_Pong } c1
        obtain ⟨i1, _, _⟩ := WriteTo_frame _ _ _ _ hw
        rw [hw]
        simp only []
        exact ih c2 buf (by rw [pending_of_inbox c1 c2 i1]; omega)
      · rw [if_neg h1]
        by_cases h2 : g.Opcode = FrameType_Pong
        · rw [if_pos h2]
          exact ih c1 buf (by omega)
        · rw [if_neg h2]
          by_cases h3 : g.Opcode = FrameType_Close
          · rw [if_pos h3]
            obtain ⟨e, c2, hc, _⟩ := Close_total { conn := c1, buffered := [] }
            rw [hc]
            exact ⟨_, rfl⟩
          · rw [if_neg h3]
            by_cases h4 : g.Opcode = FrameType_Binary
            · rw [if_pos h4]
              by_cases h5 : g.Fin = true
              · rw [if_pos h5]
                exact ⟨_, rfl⟩
              · rw [if_neg h5]
                exact ih c1 _ (by omega)
            · rw [if_neg h4]
              exact ih c1 buf (by omega)

theorem recvLoop_mono (fuel k : Nat) (c : Conn) (buf : List Byte)
    (r : Except Err (List Byte) × Conn) (h : recvLoop fuel c buf = some r) :
    recvLoop (fuel + k) c buf = some r := by
  induction fuel generalizing c buf with
  | zero => simp [recvLoop] at h
  | succ n ih =>
    rw [Nat.succ_add]
    rw [recvLoop] at h ⊢
    rcases hr : ReadFrame c with _ | ⟨rf, c1⟩
    · rw [hr] at h; simp at h
    · rw [hr] at h
      cases rf with
      | error e => exact h
      | ok g =>
        simp only [] at h ⊢
        by_cases h1 : g.Opcode = FrameType_Ping
        · rw [if_pos h1] at h ⊢
          rcases hw : Frame.WriteTo { g with Opcode := FrameType_Pong } c1 with _ | ⟨e, c2⟩
          · rw [hw] at h; simp at h
          · rw [hw] at h
            exact ih c2 buf h
        · rw [if_neg h1] at h ⊢
          by_cases h2 : g.Opcode = FrameType_Pong
          · rw [if_pos h2] at h ⊢
            exact ih c1 buf h
          · rw [if_neg h2] at h ⊢
            by_cases h3 : g.Opcode = FrameType_Close
            · rw [if_pos h3] at h ⊢
              exact h
            · rw [if_neg h3] at h ⊢
              by_cases h4 : g.Opcode = FrameType_Binary
              · rw [if_pos h4] at h ⊢
                by_cases h5 : g.Fin = true
                · rw [if_pos h5] at h ⊢
                  exact h
                · rw [if_neg h5] at h ⊢
                  exact ih c1 _ h
              · rw [if_neg h4] at h ⊢
                exact ih c1 buf h

theorem Read_total (c : ServerConnection) (b : List Byte) : ∃ r, c.Read b = some r := by
  unfold ServerConnection.Read
  by_cases h : c.buffered.length > 0
  · rw [if_pos h]
    by_cases h2 : c.buffered.length < b.length
    · rw [if_pos h2]; exact ⟨_, rfl⟩
    · rw [if_neg h2]; exact ⟨_, rfl⟩
  · rw [if_neg h]
    obtain ⟨⟨r, c1⟩, hr⟩ := recvLoop_total (c.conn.pending + 1) c.conn [] (Nat.lt_succ_self _)
    rw [hr]
    cases r with
    | error e => exact ⟨_, rfl⟩
    | ok bytes =>
      simp only []
      by_cases h2 : bytes.length < b.length
      · rw [if_pos h2]; exact ⟨_, rfl⟩
      · rw [if_neg h2]; exact ⟨_, rfl⟩

/-! ## C16: one Pong for each Ping -/

/-- C16: let the receive loop of `Read` decode a frame `g` from a transport
that accepts every write.  Decoding writes nothing.  If `g` is a Ping, the
loop writes the bytes of exactly one frame and then goes on with the transport
as decoding left it: nothing more has been read when the write is made.  The
bytes written are one frame with opcode Pong: any reader decodes them as a
single Pong frame and is left with what follows them.  If `g` is neither a
Ping nor a Close, the loop goes on, or returns the message, with the transport
as decoding left it, so nothing is written. -/
theorem ping_causes_one_pong (c c1 : Conn) (g : Frame) (fuel : Nat) (buf : List Byte)
    (hr : ReadFrame c = some (Except.ok g, c1)) (hw : c.wscript = []) :
    c1.sent = c.sent
    ∧ (g.Opcode = FrameType_Ping →
        recvLoop (fuel + 1) c buf
          = recvLoop fuel
              { c1 with sent := c.sent ++ Frame.wire { g with Opcode := FrameType_Pong } } buf
        ∧ ∀ (r : Conn) (rest : List Byte) (more : List ReadEvent),
            r.inbox = unread (Frame.wire { g with Opcode := FrameType_Pong } ++ rest) more →
            ∃ (p : Frame) (r1 : Conn),
              ReadFrame r = some (Except.ok p, r1) ∧ p.Opcode = FrameType_Pong
              ∧ r1.inbox = unread rest more)
    ∧ (g.Opcode ≠ FrameType_Ping → g.Opcode ≠ FrameType_Close →
        (∃ buf1, recvLoop (fuel + 1) c buf = recvLoop fuel c1 buf1)
        ∨ recvLoop (fuel + 1) c buf = some (Except.ok (buf ++ g.Payload), c1)) := by
  obtain ⟨a1, a2, _, _, a5⟩ := ReadFrame_frame c _ c1 hr
  obtain ⟨_, hmask, hpl, hlen, _⟩ := a5 g rfl
  have hw1 : c1.wscript = [] := a2.trans hw
  refine ⟨a1, ?_, ?_⟩
  · intro hop
    refine ⟨?_, ?_⟩
    · rw [recvLoop, hr]
      simp only [hop, if_true]
      rw [WriteTo_all _ _ hw1, a1]
    · intro r rest more hin
      have h := ReadFrame_wire { g with Opcode := FrameType_Pong } r rest more
        (by show FrameType_Pong < 16; decide)
        hmask (by rw [hpl]; exact hlen) hin
      exact ⟨_, _, h, rfl, rfl⟩
  · intro h1 h2
    rw [recvLoop, hr]
    simp only []
    rw [if_neg h1]
    by_cases h3 : g.Opcode = FrameType_Pong
    · rw [if_pos h3]
      exact Or.inl ⟨buf, rfl⟩
    · rw [if_neg h3, if_neg h2]
      by_cases h4 : g.Opcode = FrameType_Binary
      · rw [if_pos h4]
        by_cases h5 : g.Fin = true
        · rw [if_pos h5]
          exact Or.inr rfl
        · rw [if_neg h5]
          exact Or.inl ⟨_, rfl⟩
      · rw [if_neg h4]
        exact Or.inl ⟨buf, rfl⟩

/-- C16 (witness): the Ping frame `89 01 07` followed by the Binary frame
`82 01 05`. -/
theorem ping_causes_one_pong_witness :
    ReadFrame (Conn.ofBytes [137, 1, 7, 130, 1, 5])
      = some (Except.ok { Fin := true, Opcode := 9, Masked := false, Mask := zeroMask, Len := 1,
                          Payload := [7] },
          { Conn.idle with inbox := [ReadEvent.data [130, 1, 5]], reads := [2, 1] })
    ∧ recvLoop (1 + 1) (Conn.ofBytes [137, 1, 7, 130, 1, 5]) []
      = some (Except.ok [5], { Conn.idle with sent := [138, 1, 7], reads := [2, 1, 2, 1] })
    ∧ (({ Conn.idle with inbox := [ReadEvent.data [130, 1, 5]], reads := [2, 1] } : Conn).sent
        = (Conn.ofBytes [137, 1, 7, 130, 1, 5]).sent
      ∧ ((9 : Nat) = FrameType_Ping →
        recvLoop (1 + 1) (Conn.ofBytes [137, 1, 7, 130, 1, 5]) []
          = recvLoop 1
              { inbox := [ReadEvent.data [130, 1, 5]], wscript := [],
                sent := (Conn.ofBytes [137, 1, 7, 130, 1, 5]).sent ++
                  Frame.wire { Fin := true, Opcode := FrameType_Pong, Masked := false,
                               Mask := zeroMask, Len := 1, Payload := [7] },
                reads := [2, 1], closed := false } []
        ∧ ∀ (r : Conn) (rest : List Byte) (more : List ReadEvent),
            r.inbox = unread
              (Frame.wire { Fin := true, Opcode := FrameType_Pong, Masked := false,
                            Mask := zeroMask, Len := 1, Payload := [7] } ++ rest) more →
            ∃ (p : Frame) (r1 : Conn),
              ReadFrame r = some (Except.ok p, r1) ∧ p.Opcode = FrameType_Pong
              ∧ r1.inbox = unread rest more)
      ∧ ((9 : Nat) ≠ FrameType_Ping → (9 : Nat) ≠ FrameType_Close →
        (∃ buf1, recvLoop (1 + 1) (Conn.ofBytes [137, 1, 7, 130, 1, 5]) []
          = recvLoop 1
              { Conn.idle with inbox := [ReadEvent.data [130, 1, 5]], reads := [2, 1] } buf1)
        ∨ recvLoop (1 + 1) (Conn.ofBytes [137, 1, 7, 130, 1, 5]) []
          = some (Except.ok ([] ++ [7]),
              { Conn.idle with inbox := [ReadEvent.data [130, 1, 5]], reads := [2, 1] }))) :=
  ⟨by decide, by decide,
    ping_causes_one_pong (Conn.ofBytes [137, 1, 7, 130, 1, 5])
      { Conn.idle with inbox := [ReadEvent.data [130, 1, 5]], reads := [2, 1] }
      { Fin := true, Opcode := 9, Masked := false, Mask := zeroMask, Len := 1, Payload := [7] }
      1 [] (by decide) rfl⟩

/-! ## C17: copying the message into the caller's buffer -/

/-- C17: when no residue is pending and the receive loop has assembled the
message `m`, `Read` returns `n = min(len(b), len(m))` and a nil error; the
buffer keeps its length, its first `n` bytes are the first `n` bytes of `m`,
its bytes from `n` on are unchanged, and the residue the call computes is `m`
from `n` on, which is empty when the buffer takes the whole message. -/
theorem Read_copies_min (c : ServerConnection) (b m : List Byte) (c1 : Conn)
    (hb : c.buffered = [])
    (hm : recvLoop (c.conn.pending + 1) c.conn [] = some (Except.ok m, c1)) :
    ∃ r : ReadResult,
      c.Read b = some r ∧ r.n = min b.length m.length ∧ r.err = none
      ∧ r.b.length = b.length ∧ r.b.take r.n = m.take r.n ∧ r.b.drop r.n = b.drop r.n
      ∧ r.recv.buffered = m.drop r.n ∧ r.recv.conn = c1
      ∧ (m.length ≤ b.length → r.recv.buffered = []) := by
  unfold ServerConnection.Read
  have h0 : ¬ (c.buffered.length > 0) := by simp [hb]
  rw [if_neg h0, hm]
  simp only []
  by_cases h1 : m.length < b.length
  · rw [if_pos h1]
    refine ⟨_, rfl, ?_, rfl, ?_, ?_, ?_, ?_, rfl, ?_⟩
    · simp only []; omega
    · simp only [copyInto, List.length_append, List.length_take, List.length_drop]; omega
    · simp only [copyInto]
      rw [List.take_of_length_le (Nat.le_of_lt h1), List.take_left, List.take_length]
    · simp only [copyInto]
      rw [List.take_of_length_le (Nat.le_of_lt h1), List.drop_left]
    · simp [hb]
    · intro _; simp [hb]
  · rw [if_neg h1]
    have h2 : b.length ≤ m.length := by omega
    refine ⟨_, rfl, ?_, rfl, ?_, ?_, ?_, ?_, ?_, ?_⟩
    · simp only []; omega
    · simp only [copyInto, List.length_append, List.length_take, List.length_drop]; omega
    · simp only [copyInto]
      rw [List.drop_of_length_le h2, List.append_nil, List.take_take, Nat.min_self]
    · simp only [copyInto]
      have e1 : List.drop b.length (List.take b.length m) = [] :=
        List.drop_eq_nil_of_le (by simp only [List.length_take]; omega)
      rw [List.drop_of_length_le h2, List.append_nil, e1, List.drop_length]
    · by_cases h3 : m.length > b.length
      · simp [h3]
      · have h4 : m.length = b.length := by omega
        simp [h3, hb, h4]
    · by_cases h3 : m.length > b.length
      · simp [h3]
      · simp [h3]
    · intro h5
      have h4 : m.length = b.length := by omega
      have h3 : ¬ (m.length > b.length) := by omega
      simp [h3, hb]

/-- C17 (witness): the 10-byte message `0,...,9` in one Binary frame, read
with a 4-byte buffer. -/
theorem Read_copies_min_witness :
    recvLoop ((Conn.ofBytes [130, 10, 0, 1, 2, 3, 4, 5, 6, 7, 8, 9]).pending + 1)
        (Conn.ofBytes [130, 10, 0, 1, 2, 3, 4, 5, 6, 7, 8, 9]) []
      = some (Except.ok [0, 1, 2, 3, 4, 5, 6, 7, 8, 9], { Conn.idle with reads := [2, 10] })
    ∧ ∃ r : ReadResult,
      ServerConnection.Read
          { conn := Conn.ofBytes [130, 10, 0, 1, 2, 3, 4, 5, 6, 7, 8, 9], buffered := [] }
          [0, 0, 0, 0] = some r
      ∧ r.n = min [0, 0, 0, 0].length [0, 1, 2, 3, 4, 5, 6, 7, 8, 9].length ∧ r.err = none
      ∧ r.b.length = [0, 0, 0, 0].length
      ∧ r.b.take r.n = [0, 1, 2, 3, 4, 5, 6, 7, 8, 9].take r.n
      ∧ r.b.drop r.n = [0, 0, 0, 0].drop r.n
      ∧ r.recv.buffered = [0, 1, 2, 3, 4, 5, 6, 7, 8, 9].drop r.n
      ∧ r.recv.conn = { Conn.idle with reads := [2, 10] }
      ∧ ([0, 1, 2, 3, 4, 5, 6, 7, 8, 9].length ≤ [0, 0, 0, 0].length → r.recv.buffered = []) :=
  ⟨by decide,
    Read_copies_min
      { conn := Conn.ofBytes [130, 10, 0, 1, 2, 3, 4, 5, 6, 7, 8, 9], buffered := [] }
      [0, 0, 0, 0] [0, 1, 2, 3, 4, 5, 6, 7, 8, 9] { Conn.idle with reads := [2, 10] } rfl
      (by decide)⟩

/-! ## C18: frames the receive loop passes over -/

/-- C18: when the receive loop of `Read` decodes a frame `g` whose opcode is
Pong, Text or a reserved value (3 to 7, 11 to 15), the loop goes on with the
message assembled so far unchanged and with the transport as decoding left it,
and nothing is written.  So `Read` on a stream that has such a frame in front
returns what `Read` returns on the stream that follows the frame: the same
count, error and buffer contents; and since this holds at every pass of the
loop, it holds for any number of such frames at any place before the frame
that ends the call. -/
theorem passed_over_frames_leave_no_trace (c c1 : Conn) (g : Frame)
    (hr : ReadFrame c = some (Except.ok g, c1))
    (hop : g.Opcode = FrameType_Pong ∨ g.Opcode = FrameType_Text
      ∨ (3 ≤ g.Opcode ∧ g.Opcode ≤ 7) ∨ 11 ≤ g.Opcode) :
    (∀ (fuel : Nat) (buf : List Byte), recvLoop (fuel + 1) c buf = recvLoop fuel c1 buf)
    ∧ (∀ b : List Byte,
        ServerConnection.Read { conn := c, buffered := [] } b
          = ServerConnection.Read { conn := c1, buffered := [] } b)
    ∧ c1.sent = c.sent := by
  obtain ⟨a1, _, _, _, a5⟩ := ReadFrame_frame c _ c1 hr
  obtain ⟨_, _, _, _, hp⟩ := a5 g rfl
  have step : ∀ (fuel : Nat) (buf : List Byte),
      recvLoop (fuel + 1) c buf = recvLoop fuel c1 buf := by
    intro fuel buf
    rw [recvLoop, hr]
    simp only []
    have h1 : ¬ (g.Opcode = FrameType_Ping) := by
      intro h; rw [h] at hop; revert hop; decide
    rw [if_neg h1]
    by_cases h2 : g.Opcode = FrameType_Pong
    · rw [if_pos h2]
    · have h3 : ¬ (g.Opcode = FrameType_Close) := by
        intro h; rw [h] at hop; revert hop; decide
      have h4 : ¬ (g.Opcode = FrameType_Binary) := by
        intro h; rw [h] at hop; revert hop; decide
      rw [if_neg h2, if_neg h3, if_neg h4]
  refine ⟨step, ?_, a1⟩
  intro b
  have e : recvLoop (c.pending + 1) c [] = recvLoop (c1.pending + 1) c1 [] := by
    rw [step]
    obtain ⟨r, hr1⟩ := recvLoop_total (c1.pending + 1) c1 [] (Nat.lt_succ_self _)
    have hm := recvLoop_mono (c1.pending + 1) (c.pending - (c1.pending + 1)) c1 [] r hr1
    have hk : c1.pending + 1 + (c.pending - (c1.pending + 1)) = c.pending := by omega
    rw [hk] at hm
    rw [hm, hr1]
  simp only [ServerConnection.Read, List.length_nil, gt_iff_lt, Nat.lt_irrefl, if_false, e]

/-- C18 (witness): the Text frame `81 01 41` in front of the Binary frame
`82 01 07`; `Read` returns the one byte `7` with the frame in front and
without it. -/
theorem passed_over_frames_leave_no_trace_witness :
    ((ServerConnection.Read { conn := Conn.ofBytes [129, 1, 65, 130, 1, 7], buffered := [] }
        [0, 0]).map (fun r => (r.n, r.err, r.b)) = some (1, none, [7, 0])
      ∧ (ServerConnection.Read { conn := Conn.ofBytes [130, 1, 7], buffered := [] }
        [0, 0]).map (fun r => (r.n, r.err, r.b)) = some (1, none, [7, 0]))
    ∧ (∀ (fuel : Nat) (buf : List Byte),
        recvLoop (fuel + 1) (Conn.ofBytes [129, 1, 65, 130, 1, 7]) buf
          = recvLoop fuel
              { Conn.idle with inbox := [ReadEvent.data [130, 1, 7]], reads := [2, 1] } buf)
    ∧ (∀ b : List Byte,
        ServerConnection.Read { conn := Conn.ofBytes [129, 1, 65, 130, 1, 7], buffered := [] } b
          = ServerConnection.Read
              { conn := { Conn.idle with inbox := [ReadEvent.data [130, 1, 7]], reads := [2, 1] },
                buffered := [] } b)
    ∧ ({ Conn.idle with inbox := [ReadEvent.data [130, 1, 7]], reads := [2, 1] } : Conn).sent
        = (Conn.ofBytes [129, 1, 65, 130, 1, 7]).sent :=
  ⟨by decide,
    passed_over_frames_leave_no_trace (Conn.ofBytes [129, 1, 65, 130, 1, 7])
      { Conn.idle with inbox := [ReadEvent.data [130, 1, 7]], reads := [2, 1] }
      { Fin := true, Opcode := 1, Masked := false, Mask := zeroMask, Len := 1, Payload := [65] }
      (by decide) (by decide)⟩

/-! ## The reader on an arbitrary well-laid-out frame -/

theorem unread_nil_append (c : Conn) (r : List Byte) (more : List ReadEvent)
    (h : c.inbox = unread ([] ++ r) more) :
    ({ c with inbox := unread r more, reads := c.reads ++ [] } : Conn) = c := by
  cases c
  simp at h
  simp [h]

theorem readLength_stream (c : Conn) (len7 : Nat) (ext r : List Byte) (more : List ReadEvent)
    (hext : ext.length = (if len7 = 126 then 2 else if len7 = 127 then 8 else 0))
    (h : c.inbox = unread (ext ++ r) more) :
    readLength c len7 =
      (Except.ok (declaredLen len7 ext),
        { c with inbox := unread r more,
                 reads := c.reads ++ (if ext = [] then [] else [ext.length]) }) := by
  unfold readLength declaredLen
  by_cases h126 : len7 = 126
  · rw [if_pos h126] at hext
    have hne : ext ≠ [] := by
      intro h0; rw [h0] at hext; simp at hext
    have hr := Read_unread c ext r more hne h
    rw [hext] at hr
    simp only [h126, if_true, hr, hext, ne_eq, not_true_eq_false, if_false, hne]
  · rw [if_neg h126] at hext
    by_cases h127 : len7 = 127
    · rw [if_pos h127] at hext
      have hne : ext ≠ [] := by
        intro h0; rw [h0] at hext; simp at hext
      have hr := Read_unread c ext r more hne h
      rw [hext] at hr
      subst h127
      have n1 : ¬ ((127 : Nat) = 126) := by decide
      simp only [n1, if_true, if_false, hr, hext, ne_eq, not_true_eq_false, hne]
    · rw [if_neg h127] at hext
      have he : ext = [] := List.eq_nil_of_length_eq_zero hext
      subst he
      simp only [h126, h127, if_false, if_true]
      rw [unread_nil_append c r more h]

theorem readMask_stream (c : Conn) (m : Bool) (key r : List Byte) (more : List ReadEvent)
    (hkey : key.length = (if m then 4 else 0))
    (h : c.inbox = unread (key ++ r) more) :
    readMask c m =
      (Except.ok (if m then key else zeroMask),
        { c with inbox := unread r more,
                 reads := c.reads ++ (if key = [] then [] else [key.length]) }) := by
  cases m with
  | true =>
    simp only [if_true] at hkey ⊢
    have hne : key ≠ [] := by
      intro h0; rw [h0] at hkey; simp at hkey
    rw [readMask_true c key r more hkey h]
    simp [hne, hkey]
  | false =>
    simp only [Bool.false_eq_true, if_false] at hkey ⊢
    have he : key = [] := List.eq_nil_of_length_eq_zero hkey
    subst he
    rw [readMask_false]
    simp only [if_true]
    rw [unread_nil_append c r more h]

/-- The header phase of `ReadFrame` on a frame whose header, extension and key
arrive in one piece: what is left is the allocation of the payload buffer and
the payload loop. -/
theorem ReadFrame_header (c : Conn) (w : WireFrame) (rest : List Byte) (more : List ReadEvent)
    (h64 : w.h0 &&& 64 = 0) (h32 : w.h0 &&& 32 = 0) (h16 : w.h0 &&& 16 = 0)
    (hext : w.ext.length
      = (if w.h1 &&& 127 = 126 then 2 else if w.h1 &&& 127 = 127 then 8 else 0))
    (hkey : w.key.length = (if w.h1 &&& 128 ≠ 0 then 4 else 0))
    (h : c.inbox = unread ([w.h0, w.h1] ++ w.ext ++ w.key ++ rest) more) :
    ReadFrame c =
      if 2 ^ 63 ≤ declaredLen (w.h1 &&& 127) w.ext then
        some (Except.error Err.makeslicePanic,
          { c with inbox := unread rest more,
                   reads := c.reads ++ ([2] ++ (if w.ext = [] then [] else [w.ext.length])
                     ++ (if w.key = [] then [] else [w.key.length])) })
      else
        match readPayload (decide (w.h1 &&& 128 ≠ 0))
            (if w.h1 &&& 128 ≠ 0 then w.key else zeroMask) (declaredLen (w.h1 &&& 127) w.ext)
            ((unread rest more).length + 1)
            { c with inbox := unread rest more,
                     reads := c.reads ++ ([2] ++ (if w.ext = [] then [] else [w.ext.length])
                       ++ (if w.key = [] then [] else [w.key.length])) } [] with
        | none => none
        | some (Except.error e, c4) => some (Except.error e, c4)
        | some (Except.ok payload, c4) =>
          some (Except.ok
            { Fin := decide (w.h0 &&& 128 ≠ 0), Opcode := w.h0 &&& 15,
              Masked := decide (w.h1 &&& 128 ≠ 0),
              Mask := if w.h1 &&& 128 ≠ 0 then w.key else zeroMask,
              Len := declaredLen (w.h1 &&& 127) w.ext, Payload := payload }, c4) := by
  have hw : [w.h0, w.h1] ++ w.ext ++ w.key ++ rest
      = [w.h0, w.h1] ++ (w.ext ++ (w.key ++ rest)) := by
    simp [List.append_assoc]
  rw [hw] at h
  have hr := Read_unread c [w.h0, w.h1] _ more (by simp) h
  have hl : [w.h0, w.h1].length = 2 := rfl
  rw [hl] at hr
  unfold ReadFrame
  rw [hr]
  simp only [hl, ne_eq, not_true_eq_false, if_false, List.getD_cons_zero, List.getD_cons_succ,
    h64, h32, h16, decide_False, Bool.or_self, Bool.false_eq_true]
  rw [readLength_stream _ (w.h1 &&& 127) w.ext (w.key ++ rest) more hext rfl]
  simp only []
  have hkey2 : w.key.length = (if decide (¬ (w.h1 &&& 128 = 0)) = true then 4 else 0) := by
    rw [hkey]; simp
  rw [readMask_stream _ (decide (¬ (w.h1 &&& 128 = 0))) w.key rest more hkey2 rfl]
  simp only [List.append_assoc, decide_eq_true_eq]

theorem xorMask_append (mask : List Byte) (m : Nat) (a b : List Byte) :
    xorMask mask m (a ++ b) = xorMask mask m a ++ xorMask mask (m + a.length) b := by
  induction a generalizing m with
  | nil => simp [xorMask]
  | cons x xs ih =>
    have e : m + 1 + xs.length = m + (xs.length + 1) := by omega
    rw [List.cons_append]
    simp only [xorMask, List.length_cons, List.cons_append]
    rw [ih (m + 1), e]

theorem readPayload_chunks (masked : Bool) (mask : List Byte) (chunks : List (List Byte))
    (more : List ReadEvent) (total fuel : Nat) (c : Conn) (got : List Byte)
    (hne : ∀ ch ∈ chunks, ch ≠ []) (hin : c.inbox = chunks.map ReadEvent.data ++ more)
    (hlen : got.length + chunks.flatten.length = total) (hf : chunks.length < fuel) :
    ∃ c1 : Conn,
      readPayload masked mask total fuel c got
        = some (Except.ok (got ++ (if masked then xorMask mask got.length chunks.flatten
                                   else chunks.flatten)), c1)
      ∧ c1.inbox = more := by
  induction chunks generalizing c got fuel with
  | nil =>
    simp only [List.flatten_nil, List.length_nil, Nat.add_zero] at hlen
    simp only [List.map_nil, List.nil_append] at hin
    refine ⟨c, ?_, hin⟩
    rw [readPayload.eq_def]
    cases masked <;> simp [hlen, xorMask]
  | cons ch chs ih =>
    have hch : ch ≠ [] := hne ch (List.mem_cons_self _ _)
    have hpos : 0 < ch.length := List.length_pos.mpr hch
    simp only [List.flatten_cons, List.length_append] at hlen
    have hg : ¬ (got.length = total) := by omega
    cases fuel with
    | zero => simp at hf
    | succ n =>
      rw [readPayload.eq_def]
      simp only [hg, if_false]
      have hrd : c.Read (total - got.length)
          = (ch, none, { c with inbox := chs.map ReadEvent.data ++ more,
                                reads := c.reads ++ [total - got.length] }) := by
        unfold Conn.Read
        have hle : ch.length ≤ total - got.length := by omega
        simp [hin, hle]
      rw [hrd]
      simp only []
      obtain ⟨c1, h1, h2⟩ := ih n
        { c with inbox := chs.map ReadEvent.data ++ more,
                 reads := c.reads ++ [total - got.length] }
        (got ++ (if masked then xorMask mask got.length ch else ch))
        (fun x hx => hne x (List.mem_cons_of_mem _ hx)) rfl
        (by
          cases masked
          · simp only [Bool.false_eq_true, if_false, List.length_append]; omega
          · simp only [if_true, List.length_append, xorMask_length]; omega)
        (by simp only [List.length_cons] at hf; omega)
      refine ⟨c1, ?_, h2⟩
      rw [h1]
      cases masked
      · simp
      · simp [xorMask_append, xorMask_length]

/-! ## C19: unmasking and the splitting of the payload into reads -/

/-- C19: a masked frame stands on the wire, its header, extension and key
arriving in one piece and its payload in any sequence of non-empty chunks, one
chunk for each transport read.  When the payload is shorter than `2^63` bytes,
`ReadFrame` returns a frame, and its payload is the result of the single
sequential pass `payload[i] XOR key[i mod 4]` over the whole wire payload,
whatever the chunks are; the reader stops at the end of the frame.  When the
payload has `2^63` bytes or more, which is more than a transport can deliver,
`ReadFrame` does not reach the payload: it panics when it allocates the
buffer. -/
theorem unmask_independent_of_chunking (c : Conn) (w : WireFrame) (chunks : List (List Byte))
    (more : List ReadEvent) (hv : w.valid) (hm : w.h1 &&& 128 ≠ 0)
    (hne : ∀ ch ∈ chunks, ch ≠ []) (hj : chunks.flatten = w.payload)
    (h : c.inbox = ReadEvent.data ([w.h0, w.h1] ++ w.ext ++ w.key)
          :: (chunks.map ReadEvent.data ++ more)) :
    (w.payload.length < 2 ^ 63 →
      ∃ (g : Frame) (c1 : Conn),
        ReadFrame c = some (Except.ok g, c1)
        ∧ g.Payload = maskSequential w.key w.payload
        ∧ g.Masked = true ∧ g.Mask = w.key ∧ g.Len = w.payload.length
        ∧ c1.inbox = more)
    ∧ (2 ^ 63 ≤ w.payload.length →
      ∃ c1 : Conn, ReadFrame c = some (Except.error Err.makeslicePanic, c1)) := by
  obtain ⟨h64, h32, h16, hext, hkey, hpl⟩ := hv
  have hin : c.inbox = unread ([w.h0, w.h1] ++ w.ext ++ w.key ++ [])
      (chunks.map ReadEvent.data ++ more) := by
    rw [h]
    simp [unread]
  have hu : unread [] (chunks.map ReadEvent.data ++ more) = chunks.map ReadEvent.data ++ more := by
    simp [unread]
  have hd := ReadFrame_header c w [] _ h64 h32 h16 hext hkey hin
  rw [hu, ← hpl] at hd
  refine ⟨?_, ?_⟩
  · intro hb
    rw [if_neg (Nat.not_le.mpr hb)] at hd
    rw [hd]
    obtain ⟨c1, h1, h2⟩ := readPayload_chunks (decide (w.h1 &&& 128 ≠ 0))
      (if w.h1 &&& 128 ≠ 0 then w.key else zeroMask) chunks more
      w.payload.length
      ((chunks.map ReadEvent.data ++ more).length + 1)
      { c with inbox := chunks.map ReadEvent.data ++ more,
               reads := c.reads ++ ([2] ++ (if w.ext = [] then [] else [w.ext.length])
                 ++ (if w.key = [] then [] else [w.key.length])) } []
      hne rfl (by rw [hj]; simp)
      (by simp only [List.length_append, List.length_map]; omega)
    rw [h1]
    refine ⟨_, c1, rfl, ?_, ?_, ?_, rfl, h2⟩
    · simp only [hm, ne_eq, not_false_eq_true, decide_True, if_true, List.nil_append,
        List.length_nil, hj]
      exact xorMask_eq_sequential w.key w.payload
    · simp [hm]
    · simp [hm]
  · intro hb
    rw [if_pos hb] at hd
    exact ⟨_, hd⟩

/-- C19 (witness): the masked frame `82 83` with key `01 02 03 04` and wire
payload `05 06 07`, the payload delivered as `05` and `06 07`. -/
theorem unmask_independent_of_chunking_witness :
    WireFrame.valid { h0 := 130, h1 := 131, ext := [], key := [1, 2, 3, 4], payload := [5, 6, 7] }
    ∧ ReadFrame { Conn.idle with inbox := [ReadEvent.data [130, 131, 1, 2, 3, 4],
                    ReadEvent.data [5], ReadEvent.data [6, 7]] }
      = some (Except.ok { Fin := true, Opcode := 2, Masked := true, Mask := [1, 2, 3, 4],
                          Len := 3, Payload := [4, 4, 4] },
          { Conn.idle with reads := [2, 4, 3, 2] })
    ∧ ([5, 6, 7].length < 2 ^ 63 →
      ∃ (g : Frame) (c1 : Conn),
        ReadFrame { Conn.idle with inbox := [ReadEvent.data [130, 131, 1, 2, 3, 4],
                      ReadEvent.data [5], ReadEvent.data [6, 7]] }
          = some (Except.ok g, c1)
        ∧ g.Payload = maskSequential [1, 2, 3, 4] [5, 6, 7]
        ∧ g.Masked = true ∧ g.Mask = [1, 2, 3, 4] ∧ g.Len = [5, 6, 7].length
        ∧ c1.inbox = [])
    ∧ (2 ^ 63 ≤ [5, 6, 7].length →
      ∃ c1 : Conn,
        ReadFrame { Conn.idle with inbox := [ReadEvent.data [130, 131, 1, 2, 3, 4],
                      ReadEvent.data [5], ReadEvent.data [6, 7]] }
          = some (Except.error Err.makeslicePanic, c1)) :=
  ⟨by decide, by decide,
    unmask_independent_of_chunking
      { Conn.idle with inbox := [ReadEvent.data [130, 131, 1, 2, 3, 4],
          ReadEvent.data [5], ReadEvent.data [6, 7]] }
      { h0 := 130, h1 := 131, ext := [], key := [1, 2, 3, 4], payload := [5, 6, 7] }
      [[5], [6, 7]] [] (by decide) (by decide) (by decide) rfl rfl⟩

/-! ## C20: one call of `ReadFrame` consumes one frame -/

theorem WireFrame_reads_sum (w : WireFrame) :
    w.reads.sum = 2 + w.ext.length + w.key.length + w.payload.length
    ∧ w.bytes.length = 2 + w.ext.length + w.key.length + w.payload.length := by
  have hs : ∀ l : List Byte, (if l = [] then [] else [l.length]).sum = l.length := by
    intro l
    cases l <;> simp
  refine ⟨?_, ?_⟩
  · simp only [WireFrame.reads, List.sum_append, hs]
    simp
  · simp only [WireFrame.bytes, List.length_append, List.length_cons, List.length_nil]

theorem ReadFrame_stream (c : Conn) (w : WireFrame) (rest : List Byte) (more : List ReadEvent)
    (hv : w.valid) (hb : w.payload.length < 2 ^ 63)
    (h : c.inbox = unread (w.bytes ++ rest) more) :
    ReadFrame c =
      some (Except.ok
        { Fin := decide (w.h0 &&& 128 ≠ 0), Opcode := w.h0 &&& 15,
          Masked := decide (w.h1 &&& 128 ≠ 0),
          Mask := if w.h1 &&& 128 ≠ 0 then w.key else zeroMask,
          Len := w.payload.length,
          Payload := if w.h1 &&& 128 ≠ 0 then xorMask w.key 0 w.payload else w.payload },
        { c with inbox := unread rest more, reads := c.reads ++ w.reads }) := by
  obtain ⟨h64, h32, h16, hext, hkey, hpl⟩ := hv
  have hw : w.bytes ++ rest = [w.h0, w.h1] ++ w.ext ++ w.key ++ (w.payload ++ rest) := by
    simp [WireFrame.bytes, List.append_assoc]
  rw [hw] at h
  rw [ReadFrame_header c w (w.payload ++ rest) more h64 h32 h16 hext hkey h, ← hpl]
  rw [if_neg (Nat.not_le.mpr hb)]
  rw [readPayload_unread _ _ w.payload rest more _ _ (Nat.succ_pos _) rfl]
  simp only [WireFrame.reads, List.append_assoc]
  by_cases hm : w.h1 &&& 128 = 0 <;> simp [hm]

/-- C20 (counterexample): the masked frame `82 83 01 02 03 04 05 06 07` is
followed on the wire by the byte `09`, and the transport delivers
`82 83 01 02 03 04 05` and then `06 07 09`.  `ReadFrame` succeeds and leaves
`09` unread, but its reads request 2, 4, 3 and 2 bytes, 11 in total, for a
frame of `2 + 0 + 4 + 3 = 9` bytes: the payload read that is served one byte
is followed by a read that asks for the two bytes still missing. -/
theorem chunked_payload_requests_counterexample :
    ReadFrame { Conn.idle with
                inbox := [ReadEvent.data [130, 131, 1, 2, 3, 4, 5], ReadEvent.data [6, 7, 9]] }
      = some (Except.ok { Fin := true, Opcode := FrameType_Binary, Masked := true,
                          Mask := [1, 2, 3, 4], Len := 3, Payload := [4, 4, 4] },
          { Conn.idle with inbox := [ReadEvent.data [9]], reads := [2, 4, 3, 2] })
    ∧ ([2, 4, 3, 2] : List Nat).sum = 11
    ∧ (WireFrame.bytes { h0 := 130, h1 := 131, ext := [], key := [1, 2, 3, 4],
                         payload := [5, 6, 7] }).length = 9 := by
  decide

/-- C20 (amended): two frames stand on the wire one after the other, each laid
out as its header says (extension of 0, 2 or 8 bytes, a 4-byte key when
masked, a payload of the declared length, below `2^63`), followed by further
bytes `rest`, and the transport holds each frame whole in one segment: the
first frame is followed in its segment by the bytes `r1`, and what the
transport holds after the first frame begins with the second frame, in the
same segment or at the start of the next one.  Then every read is served in
full: the first `ReadFrame` succeeds, requests from the transport exactly
`2 + extension + key + payload` bytes in total, the number of bytes of the
first frame, and leaves everything after the first frame unread; the second
`ReadFrame` then decodes the second frame, from its first byte, and leaves
exactly `rest` unread. -/
theorem ReadFrame_consumes_one_frame (c : Conn) (w1 w2 : WireFrame) (r1 rest : List Byte)
    (more1 more2 : List ReadEvent) (hv1 : w1.valid) (hv2 : w2.valid)
    (hb1 : w1.payload.length < 2 ^ 63) (hb2 : w2.payload.length < 2 ^ 63)
    (h1 : c.inbox = unread (w1.bytes ++ r1) more1)
    (h2 : unread r1 more1 = unread (w2.bytes ++ rest) more2) :
    ∃ (g1 g2 : Frame) (c1 c2 : Conn) (rs : List Nat),
      ReadFrame c = some (Except.ok g1, c1)
      ∧ c1.reads = c.reads ++ rs
      ∧ rs.sum = 2 + w1.ext.length + w1.key.length + w1.payload.length
      ∧ rs.sum = w1.bytes.length
      ∧ c1.inbox = unread r1 more1
      ∧ g1.Fin = decide (w1.h0 &&& 128 ≠ 0) ∧ g1.Opcode = w1.h0 &&& 15
      ∧ g1.Masked = decide (w1.h1 &&& 128 ≠ 0) ∧ g1.Len = w1.payload.length
      ∧ g1.Payload = (if w1.h1 &&& 128 ≠ 0 then xorMask w1.key 0 w1.payload else w1.payload)
      ∧ ReadFrame c1 = some (Except.ok g2, c2)
      ∧ c2.inbox = unread rest more2
      ∧ g2.Fin = decide (w2.h0 &&& 128 ≠ 0) ∧ g2.Opcode = w2.h0 &&& 15
      ∧ g2.Masked = decide (w2.h1 &&& 128 ≠ 0) ∧ g2.Len = w2.payload.length
      ∧ g2.Payload = (if w2.h1 &&& 128 ≠ 0 then xorMask w2.key 0 w2.payload else w2.payload) := by
  have e1 := ReadFrame_stream c w1 r1 more1 hv1 hb1 h1
  have e2 := ReadFrame_stream
    { c with inbox := unread r1 more1, reads := c.reads ++ w1.reads }
    w2 rest more2 hv2 hb2 h2
  obtain ⟨s1, s2⟩ := WireFrame_reads_sum w1
  exact ⟨_, _, _, _, w1.reads, e1, rfl, s1, s1.trans s2.symm, rfl, rfl, rfl, rfl, rfl, rfl, e2,
    rfl, rfl, rfl, rfl, rfl, rfl⟩

/-- C20 (witness): the unmasked frame `81 7E 00 01 41`, whose one-byte payload
is announced with a 2-byte extension, is alone in its segment; the next
segment holds the masked frame `82 81 01 02 03 04 05` and the further byte
`09`. -/
theorem ReadFrame_consumes_one_frame_witness :
    WireFrame.valid { h0 := 129, h1 := 126, ext := [0, 1], key := [], payload := [65] }
    ∧ WireFrame.valid { h0 := 130, h1 := 129, ext := [], key := [1, 2, 3, 4], payload := [5] }
    ∧ ReadFrame { Conn.idle with inbox := [ReadEvent.data [129, 126, 0, 1, 65],
                    ReadEvent.data [130, 129, 1, 2, 3, 4, 5, 9]] }
      = some (Except.ok { Fin := true, Opcode := 1, Masked := false, Mask := zeroMask, Len := 1,
                          Payload := [65] },
          { Conn.idle with inbox := [ReadEvent.data [130, 129, 1, 2, 3, 4, 5, 9]],
                           reads := [2, 2, 1] })
    ∧ ∃ (g1 g2 : Frame) (c1 c2 : Conn) (rs : List Nat),
      ReadFrame { Conn.idle with inbox := [ReadEvent.data [129, 126, 0, 1, 65],
                    ReadEvent.data [130, 129, 1, 2, 3, 4, 5, 9]] }
        = some (Except.ok g1, c1)
      ∧ c1.reads = [] ++ rs
      ∧ rs.sum = 2 + [0, 1].length + ([] : List Byte).length + [65].length
      ∧ rs.sum = (WireFrame.bytes
          { h0 := 129, h1 := 126, ext := [0, 1], key := [], payload := [65] }).length
      ∧ c1.inbox = unread [] [ReadEvent.data [130, 129, 1, 2, 3, 4, 5, 9]]
      ∧ g1.Fin = decide (129 &&& 128 ≠ 0) ∧ g1.Opcode = 129 &&& 15
      ∧ g1.Masked = decide (126 &&& 128 ≠ 0) ∧ g1.Len = [65].length
      ∧ g1.Payload = (if 126 &&& 128 ≠ 0 then xorMask [] 0 [65] else [65])
      ∧ ReadFrame c1 = some (Except.ok g2, c2)
      ∧ c2.inbox = unread [9] []
      ∧ g2.Fin = decide (130 &&& 128 ≠ 0) ∧ g2.Opcode = 130 &&& 15
      ∧ g2.Masked = decide (129 &&& 128 ≠ 0) ∧ g2.Len = [5].length
      ∧ g2.Payload = (if 129 &&& 128 ≠ 0 then xorMask [1, 2, 3, 4] 0 [5] else [5]) :=
  ⟨by decide, by decide, by decide,
    ReadFrame_consumes_one_frame
      { Conn.idle with inbox := [ReadEvent.data [129, 126, 0, 1, 65],
          ReadEvent.data [130, 129, 1, 2, 3, 4, 5, 9]] }
      { h0 := 129, h1 := 126, ext := [0, 1], key := [], payload := [65] }
      { h0 := 130, h1 := 129, ext := [], key := [1, 2, 3, 4], payload := [5] }
      [] [9] [ReadEvent.data [130, 129, 1, 2, 3, 4, 5, 9]] [] (by decide) (by decide)
      (by decide) (by decide) (by decide) (by decide)⟩

end Zocket
